import Mathlib

/-!
# Shallow embedding of the ADS-B log analysis scripts

This file embeds the core of `Final-Project/SNR_RSS_analysis/adsb_log_analysis.py`
(and, for the cross-variant claims, the corresponding functions of
`adsb_rss_analysis.py` and `adsb_snr_analysis.py`) in Lean 4 and proves the
frozen claims about it.

Modelling conventions:
* Python strings are `List Char` (ASCII is the realistic domain of the logs).
* Python floats are exact rationals `ℚ`; decimal literals of the source are
  embedded as exact rationals (e.g. `1e-9` is `1/10^9`).
* The transcendental geodesy primitives (`math.sin`/`asin`/`sqrt`/`atan2` used
  by `haversine_m` and the geometry code, whose bodies are literally identical
  in all three scripts) are abstracted into a `GeoPrims` record of function
  parameters so that every definition stays executable; the claims under
  verification only concern the data flow around those primitives.
* Fallible Python code is `Except String`/`Option`; an uncaught exception is an
  `Except.error`.
-/

namespace ADSB

/-- Convert a Lean string literal to the `List Char` representation used for
Python strings throughout this file. -/
def chars (s : String) : List Char := s.toList

/-- Python's notion of whitespace for `str.strip()` / `int()` (ASCII part). -/
def isPyWS (c : Char) : Bool := c = ' ' ∨ c = '\t' ∨ c = '\n' ∨ c = '\r' ∨ c = '\x0b' ∨ c = '\x0c'

/-- `str.strip()`: drop leading and trailing whitespace. -/
def stripWS (s : List Char) : List Char :=
  ((s.dropWhile isPyWS).reverse.dropWhile isPyWS).reverse

/-- `str.replace(" ", "")`: remove every space character. -/
def removeSpaces (s : List Char) : List Char := s.filter (fun c => c ≠ ' ')

/-- ASCII `str.lower()` on one character. -/
def asciiLower (c : Char) : Char :=
  if 'A' ≤ c ∧ c ≤ 'Z' then Char.ofNat (c.toNat + 32) else c

/-- ASCII `str.lower()` on a string. -/
def lowerStr (s : List Char) : List Char := s.map asciiLower

/-- The test `c in "0123456789abcdef"` of `normalize_icao24`. -/
def isHexLowerDigit (c : Char) : Bool :=
  (chars "0123456789abcdef").contains c

/-- Numeric value of an ASCII decimal digit. -/
def digitVal (c : Char) : Nat := c.toNat - 48

/-! ## Python `int(s, base)` for bases 2 and 16

`int(s, b)` strips surrounding whitespace, then accepts an optional sign, an
optional `0x`/`0X` (resp. `0b`/`0B`) prefix, and a nonempty digit sequence in
which single underscores may separate digits (one underscore is also allowed
directly after the prefix).  Anything else raises `ValueError`. -/

/-- The digit characters of base 16 with their values (either case). -/
def hexDigitTable : List (Char × Nat) :=
  [('0', 0), ('1', 1), ('2', 2), ('3', 3), ('4', 4), ('5', 5), ('6', 6), ('7', 7),
   ('8', 8), ('9', 9),
   ('a', 10), ('b', 11), ('c', 12), ('d', 13), ('e', 14), ('f', 15),
   ('A', 10), ('B', 11), ('C', 12), ('D', 13), ('E', 14), ('F', 15)]

/-- Assoc lookup for digit tables. -/
def tableVal (c : Char) : List (Char × Nat) → Option Nat
  | [] => none
  | (c', d) :: rest => if c' = c then some d else tableVal c rest

/-- Value of one digit in the given base, if valid. -/
def baseDigitVal (base : Nat) (c : Char) : Option Nat :=
  if base = 2 then tableVal c [('0', 0), ('1', 1)]
  else tableVal c hexDigitTable

/-- Digit-sequence loop: `pu` records whether the previous character was an
underscore (two in a row, or a trailing underscore, are invalid). -/
def parseDigitsGo (base : Nat) (acc : Nat) (pu : Bool) : List Char → Option Nat
  | [] => if pu then none else some acc
  | c :: rest =>
    if c = '_' then
      if pu then none else parseDigitsGo base acc true rest
    else
      match baseDigitVal base c with
      | some d => parseDigitsGo base (base * acc + d) false rest
      | none => none

/-- A nonempty digit sequence; a leading underscore is invalid. -/
def parseDigitSeq (base : Nat) : List Char → Option Nat
  | [] => none
  | c :: rest =>
    if c = '_' then none
    else
      match baseDigitVal base c with
      | some d => parseDigitsGo base d false rest
      | none => none

/-- Unsigned part: optional `0x`/`0X` (resp. `0b`/`0B`) prefix, optionally
followed by one underscore, then a digit sequence. -/
def parseUnsignedInt (base : Nat) (pc PC : Char) (s : List Char) : Option Nat :=
  match s with
  | c0 :: c :: rest =>
    if c0 = '0' ∧ (c = pc ∨ c = PC) then
      match rest with
      | r1 :: rest2 => if r1 = '_' then parseDigitSeq base rest2 else parseDigitSeq base rest
      | [] => parseDigitSeq base rest
    else parseDigitSeq base s
  | _ => parseDigitSeq base s

/-- Python `int(s, base)` for base 2 or 16 (selected by the prefix letters). -/
def pyIntBase (base : Nat) (pc PC : Char) (s : List Char) : Option Int :=
  match stripWS s with
  | c :: rest =>
    if c = '+' then (parseUnsignedInt base pc PC rest).map Int.ofNat
    else if c = '-' then (parseUnsignedInt base pc PC rest).map (fun n => -(n : Int))
    else (parseUnsignedInt base pc PC (c :: rest)).map Int.ofNat
  | [] => none

/-- Python `int(s, 16)`. -/
def pyIntHex (s : List Char) : Option Int := pyIntBase 16 'x' 'X' s

/-- Python `int(s, 2)`. -/
def pyIntBin (s : List Char) : Option Int := pyIntBase 2 'b' 'B' s

/-! ## Python `bin`, `zfill` and `"%06x"` formatting -/

/-- Binary digits of `n` (most significant first), by repeated division; the
first argument is fuel (`n` itself is always enough). Empty for `n = 0`. -/
def binDigitsAux : Nat → Nat → List Char
  | 0, _ => []
  | fuel + 1, n =>
    if n = 0 then []
    else binDigitsAux fuel (n / 2) ++ [if n % 2 = 1 then '1' else '0']

/-- Binary digits of `n`, `"0"` for zero (as in Python's `bin` payload). -/
def natBinDigits (n : Nat) : List Char :=
  if n = 0 then ['0'] else binDigitsAux n n

/-- Python `bin(v)`: `0b...` with a leading `-` for negative values. -/
def pyBin (v : Int) : List Char :=
  if v < 0 then '-' :: '0' :: 'b' :: natBinDigits v.natAbs
  else '0' :: 'b' :: natBinDigits v.natAbs

/-- Python `str.zfill(w)`: left-pad with zeros to width `w`. -/
def zfill (w : Nat) (s : List Char) : List Char :=
  List.replicate (w - s.length) '0' ++ s

/-- Lowercase hex digit character for a value below 16. -/
def hexChar (d : Nat) : Char :=
  if d < 10 then Char.ofNat (48 + d) else Char.ofNat (87 + d)

/-- Lowercase hex digits of `n` (most significant first), fuel-driven. -/
def hexDigitsAux : Nat → Nat → List Char
  | 0, _ => []
  | fuel + 1, n =>
    if n = 0 then []
    else hexDigitsAux fuel (n / 16) ++ [hexChar (n % 16)]

/-- Lowercase hex digits of `n`, `"0"` for zero. -/
def natHexDigits (n : Nat) : List Char :=
  if n = 0 then ['0'] else hexDigitsAux n n

/-- Python `f"{v:06x}"`: lowercase hex, zero-padded to a total width of 6
(the sign of a negative value counts towards the width). -/
def pyHex06 (v : Int) : List Char :=
  let h := natHexDigits v.natAbs
  if v < 0 then '-' :: (List.replicate (6 - 1 - h.length) '0' ++ h)
  else List.replicate (6 - h.length) '0' ++ h

/-! ## Decimal representation (for `f"Other_TC{t}"`) -/

/-- Decimal digits of `n` (most significant first), fuel-driven. -/
def decDigitsAux : Nat → Nat → List Char
  | 0, _ => []
  | fuel + 1, n =>
    if n = 0 then []
    else decDigitsAux fuel (n / 10) ++ [Char.ofNat (48 + n % 10)]

/-- Decimal digits of `n`, `"0"` for zero. -/
def natDecDigits (n : Nat) : List Char :=
  if n = 0 then ['0'] else decDigitsAux n n

/-- Python `str(v)` for an integer. -/
def intRepr (v : Int) : List Char :=
  if v < 0 then '-' :: natDecDigits v.natAbs else natDecDigits v.natAbs

/-! ## Python `float(s)` and `safe_float`

`float(s)` accepts an optional sign, then either `digits [. digits] ` or
`. digits`, with an optional `e`/`E` exponent part.  (IEEE specials such as
`inf`/`nan` fall outside the exact rational embedding; PEP 515 underscores in
float literals are likewise not modelled, as they never occur in the logs.)
`safe_float` additionally maps blank / `"nan"` / `"none"` to `None`. -/

/-- Longest leading run of decimal digits, with the rest of the input. -/
def takeDigits : List Char → List Nat × List Char
  | [] => ([], [])
  | c :: rest =>
    if '0' ≤ c ∧ c ≤ '9' then
      let (ds, r) := takeDigits rest
      (digitVal c :: ds, r)
    else ([], c :: rest)

/-- Value of a digit list, most significant first. -/
def natOfDigits (ds : List Nat) : Nat := ds.foldl (fun acc d => 10 * acc + d) 0

/-- Mantissa: `digits [. [digits]]` or `. digits`. -/
def parseMantissa (s : List Char) : Option (ℚ × List Char) :=
  let (ds, r1) := takeDigits s
  match r1 with
  | '.' :: r2 =>
    let (fs, r3) := takeDigits r2
    if ds.isEmpty ∧ fs.isEmpty then none
    else some ((natOfDigits ds : ℚ) + (natOfDigits fs : ℚ) / 10 ^ fs.length, r3)
  | _ => if ds.isEmpty then none else some ((natOfDigits ds : ℚ), r1)

/-- Exponent part after `e`/`E`: optional sign then digits, consuming all. -/
def parseExponent (s : List Char) : Option Int :=
  let (sg, s1) : Int × List Char :=
    match s with
    | '+' :: r => (1, r)
    | '-' :: r => (-1, r)
    | _ => (1, s)
  let (ds, r) := takeDigits s1
  if ds.isEmpty ∨ ¬r.isEmpty then none else some (sg * (natOfDigits ds : Int))

/-- Python `float(s)` on a stripped string (rational subset). -/
def pyFloatParse (s : List Char) : Option ℚ :=
  let (sg, s1) : ℚ × List Char :=
    match s with
    | '+' :: r => (1, r)
    | '-' :: r => (-1, r)
    | _ => (1, s)
  match parseMantissa s1 with
  | none => none
  | some (m, rest) =>
    match rest with
    | [] => some (sg * m)
    | c :: r2 =>
      if c = 'e' ∨ c = 'E' then
        match parseExponent r2 with
        | some e => some (sg * m * (10 : ℚ) ^ e)
        | none => none
      else none

/-- `safe_float` from the scripts: strip, map `""`/`"nan"`/`"none"` to `None`,
otherwise `float(s)` (exceptions also give `None`). -/
def safe_float (x : List Char) : Option ℚ :=
  let s := stripWS x
  if s.isEmpty then none
  else if lowerStr s = chars "nan" ∨ lowerStr s = chars "none" then none
  else pyFloatParse s

/-- `pd.to_numeric(col, errors="coerce")` on one cell, modelled with the same
numeric grammar as `safe_float` (unparseable cells become absent). -/
def pyToNumeric (x : List Char) : Option ℚ := safe_float x

/-- Python `int(q)` on a float: truncation toward zero. -/
def pyIntOfRat (q : ℚ) : Int := Int.tdiv q.num (q.den : Int)

/-! ## Message decoding (`adsb_log_analysis.py` lines 129-212) -/

/-- `normalize_icao24` (log-analysis variant): strip, reject blanks, remove
spaces and lowercase, accept exactly 6 lowercase-hex characters. -/
def normalize_icao24 (x : List Char) : Option (List Char) :=
  let s := stripWS x
  if s.isEmpty then none
  else
    let s := lowerStr (removeSpaces s)
    if s.all isHexLowerDigit ∧ s.length = 6 then some s else none

/-- `msg_len_class`: classify a hex message by character count after removing
whitespace and interior spaces. -/
def msg_len_class (message_hex : List Char) : List Char :=
  let s := removeSpaces (stripWS message_hex)
  if s.length = 14 then chars "short"
  else if s.length = 28 then chars "extended"
  else chars "unknown"

/-- `tc_category`: bucket an ADS-B type code. -/
def tc_category (tc : Option ℚ) : List Char :=
  match tc with
  | none => chars "TC_unknown"
  | some q =>
    let t := pyIntOfRat q
    if 1 ≤ t ∧ t ≤ 4 then chars "ID_TC1-4"
    else if 5 ≤ t ∧ t ≤ 8 then chars "SurfacePos_TC5-8"
    else if 9 ≤ t ∧ t ≤ 18 then chars "AirbornePos_Baro_TC9-18"
    else if t = 19 then chars "Velocity_TC19"
    else if 20 ≤ t ∧ t ≤ 22 then chars "AirbornePos_GNSS_TC20-22"
    else if t = 28 then chars "Status_TC28"
    else if t = 0 then chars "TC0_or_not_decoded"
    else chars "Other_TC" ++ intRepr t

/-- `extract_icao24_from_df11`.  The `try` block of the source covers only
`int(s, 16)` (and the `bin`/`zfill` call); the later `int(bits[0:5], 2)` and
`int(aa_bits, 2)` calls are outside it, so a `ValueError` raised there
propagates to the caller — modelled as `Except.error`. -/
def extract_icao24_from_df11 (message_hex : List Char) : Except String (Option (List Char)) :=
  let s := removeSpaces (stripWS message_hex)
  if s.length ≠ 14 then .ok none
  else
    match pyIntHex s with
    | none => .ok none
    | some n =>
      let bits := zfill 56 ((pyBin n).drop 2)
      match pyIntBin (bits.take 5) with
      | none => .error "ValueError: invalid literal for int() with base 2"
      | some df =>
        if df ≠ 11 then .ok none
        else
          match pyIntBin ((bits.drop 8).take 24) with
          | none => .error "ValueError: invalid literal for int() with base 2"
          | some aa => .ok (some (pyHex06 aa))

/-- `m_to_ft` multiplier / `compute_dist` divisor `3.280839895`. -/
def ft_per_m : ℚ := 3280839895 / 1000000000

/-- `mps_to_kts` multiplier `1.9438444924406`. -/
def kts_per_mps : ℚ := 19438444924406 / 10000000000000

/-! ## Linear time mapper (`adsb_log_analysis.py` lines 78-114)

All three scripts define the identical `LinearTimeMapper`; the anchor strings
baked into each module differ and are supplied here as the four anchor epoch
seconds.  `real_seconds = a * matlab_seconds + b`. -/

structure LinearTimeMapper where
  a : ℚ
  b : ℚ
deriving DecidableEq

namespace LinearTimeMapper

/-- `LinearTimeMapper.from_anchors`, with the anchors already converted to
epoch seconds (`m1s`, `r1s`, `m2s`, `r2s` in the source): raise `ValueError`
when the two MATLAB anchor times agree within `1e-6` seconds, otherwise solve
the two-point line. -/
def from_anchors (m1s r1s m2s r2s : ℚ) : Except String LinearTimeMapper :=
  if |m2s - m1s| < 1 / 1000000 then
    .error "Anchor MATLAB times are identical; cannot build linear map."
  else
    let a := (r2s - r1s) / (m2s - m1s)
    let b := r1s - a * m1s
    .ok { a := a, b := b }

/-- `map_dt` at the epoch-seconds level: `rs = a * s + b`. -/
def map_s (L : LinearTimeMapper) (s : ℚ) : ℚ := L.a * s + L.b

end LinearTimeMapper

/-! ## `datetime.strptime(ts, "%d-%b-%Y %H:%M:%S")`

CPython compiles the format to a regex: `%d` matches `3[01]|[12]\d|0[1-9]|[1-9]`,
`%b` a case-insensitive three-letter month abbreviation, `%Y` exactly four
digits, `%H` `2[0-3]|[01]\d|\d`, `%M`/`%S` `[0-5]\d|\d`; a space in the format
matches one or more whitespace characters, and any unconverted trailing data
raises `ValueError`.  The resulting fields must form a valid `datetime`
(day within the month, which the regex ranges otherwise guarantee). -/

structure MDateTime where
  year : Nat
  month : Nat
  day : Nat
  hour : Nat
  minute : Nat
  second : Nat
deriving DecidableEq

/-- `%d`: day of month, `3[01]|[12]\d|0[1-9]|[1-9]`. -/
def parseDay : List Char → Option (Nat × List Char)
  | c1 :: c2 :: rest =>
    if c1 = '3' ∧ (c2 = '0' ∨ c2 = '1') then some (30 + digitVal c2, rest)
    else if (c1 = '1' ∨ c1 = '2') ∧ ('0' ≤ c2 ∧ c2 ≤ '9') then
      some (10 * digitVal c1 + digitVal c2, rest)
    else if c1 = '0' ∧ ('1' ≤ c2 ∧ c2 ≤ '9') then some (digitVal c2, rest)
    else if '1' ≤ c1 ∧ c1 ≤ '9' then some (digitVal c1, c2 :: rest)
    else none
  | [c1] => if '1' ≤ c1 ∧ c1 ≤ '9' then some (digitVal c1, []) else none
  | [] => none

/-- `%H`: hour, `2[0-3]|[01]\d|\d`. -/
def parseHour : List Char → Option (Nat × List Char)
  | c1 :: c2 :: rest =>
    if c1 = '2' ∧ ('0' ≤ c2 ∧ c2 ≤ '3') then some (20 + digitVal c2, rest)
    else if (c1 = '0' ∨ c1 = '1') ∧ ('0' ≤ c2 ∧ c2 ≤ '9') then
      some (10 * digitVal c1 + digitVal c2, rest)
    else if '0' ≤ c1 ∧ c1 ≤ '9' then some (digitVal c1, c2 :: rest)
    else none
  | [c1] => if '0' ≤ c1 ∧ c1 ≤ '9' then some (digitVal c1, []) else none
  | [] => none

/-- `%M` / `%S`: `[0-5]\d|\d`. -/
def parseMinSec : List Char → Option (Nat × List Char)
  | c1 :: c2 :: rest =>
    if ('0' ≤ c1 ∧ c1 ≤ '5') ∧ ('0' ≤ c2 ∧ c2 ≤ '9') then
      some (10 * digitVal c1 + digitVal c2, rest)
    else if '0' ≤ c1 ∧ c1 ≤ '9' then some (digitVal c1, c2 :: rest)
    else none
  | [c1] => if '0' ≤ c1 ∧ c1 ≤ '9' then some (digitVal c1, []) else none
  | [] => none

/-- `%Y`: exactly four digits. -/
def parseYear4 : List Char → Option (Nat × List Char)
  | c1 :: c2 :: c3 :: c4 :: rest =>
    if ('0' ≤ c1 ∧ c1 ≤ '9') ∧ ('0' ≤ c2 ∧ c2 ≤ '9') ∧ ('0' ≤ c3 ∧ c3 ≤ '9') ∧
        ('0' ≤ c4 ∧ c4 ≤ '9') then
      some (1000 * digitVal c1 + 100 * digitVal c2 + 10 * digitVal c3 + digitVal c4, rest)
    else none
  | _ => none

/-- `%b`: case-insensitive three-letter month abbreviation. -/
def parseMonthAbbr : List Char → Option (Nat × List Char)
  | c1 :: c2 :: c3 :: rest =>
    let w := lowerStr [c1, c2, c3]
    if w = chars "jan" then some (1, rest)
    else if w = chars "feb" then some (2, rest)
    else if w = chars "mar" then some (3, rest)
    else if w = chars "apr" then some (4, rest)
    else if w = chars "may" then some (5, rest)
    else if w = chars "jun" then some (6, rest)
    else if w = chars "jul" then some (7, rest)
    else if w = chars "aug" then some (8, rest)
    else if w = chars "sep" then some (9, rest)
    else if w = chars "oct" then some (10, rest)
    else if w = chars "nov" then some (11, rest)
    else if w = chars "dec" then some (12, rest)
    else none
  | _ => none

/-- A literal character of the format. -/
def parseLit (lit : Char) : List Char → Option (List Char)
  | c :: rest => if c = lit then some rest else none
  | _ => none

/-- One or more whitespace characters (a space in a strptime format). -/
def parseWS1 : List Char → Option (List Char)
  | c :: rest => if isPyWS c then some (rest.dropWhile isPyWS) else none
  | _ => none

/-- Gregorian leap year. -/
def isLeapYear (y : Nat) : Bool := (y % 4 = 0 ∧ y % 100 ≠ 0) ∨ y % 400 = 0

/-- Days in a month of the proleptic Gregorian calendar. -/
def daysInMonth (y m : Nat) : Nat :=
  if m = 2 then (if isLeapYear y then 29 else 28)
  else if m = 4 ∨ m = 6 ∨ m = 9 ∨ m = 11 then 30
  else 31

/-- `parse_matlab_timestamp`: strip, then `strptime` with
`"%d-%b-%Y %H:%M:%S"`; any failure raises `ValueError`. -/
def parse_matlab_timestamp (ts : List Char) : Except String MDateTime :=
  let s := stripWS ts
  match parseDay s with
  | none => .error "ValueError: time data does not match format"
  | some (d, s) =>
    match parseLit '-' s with
    | none => .error "ValueError: time data does not match format"
    | some s =>
      match parseMonthAbbr s with
      | none => .error "ValueError: time data does not match format"
      | some (mo, s) =>
        match parseLit '-' s with
        | none => .error "ValueError: time data does not match format"
        | some s =>
          match parseYear4 s with
          | none => .error "ValueError: time data does not match format"
          | some (y, s) =>
            match parseWS1 s with
            | none => .error "ValueError: time data does not match format"
            | some s =>
              match parseHour s with
              | none => .error "ValueError: time data does not match format"
              | some (h, s) =>
                match parseLit ':' s with
                | none => .error "ValueError: time data does not match format"
                | some s =>
                  match parseMinSec s with
                  | none => .error "ValueError: time data does not match format"
                  | some (mi, s) =>
                    match parseLit ':' s with
                    | none => .error "ValueError: time data does not match format"
                    | some s =>
                      match parseMinSec s with
                      | none => .error "ValueError: unconverted data remains"
                      | some (sec, s) =>
                        if ¬s.isEmpty then .error "ValueError: unconverted data remains"
                        else if ¬(1 ≤ y ∧ y ≤ 9999) then .error "ValueError: year out of range"
                        else if d > daysInMonth y mo then
                          .error "ValueError: day is out of range for month"
                        else .ok ⟨y, mo, d, h, mi, sec⟩

/-- Days since 1970-01-01 of a proleptic Gregorian date
(Hinnant's `days_from_civil`). -/
def daysFromCivil (year : Int) (month day : Nat) : Int :=
  let y : Int := if month ≤ 2 then year - 1 else year
  let era : Int := y.ediv 400
  let yoe : Int := y - era * 400
  let mp : Int := ((month : Int) + 9).emod 12
  let doy : Int := (153 * mp + 2).ediv 5 + (day : Int) - 1
  let doe : Int := yoe * 365 + yoe.ediv 4 - yoe.ediv 100 + doy
  era * 146097 + doe - 719468

/-- Epoch seconds at local midnight of a date (before timezone correction). -/
def dateBase (dt : MDateTime) : ℚ :=
  86400 * (daysFromCivil (dt.year : Int) dt.month dt.day : ℚ)

/-- `timegm`-style epoch seconds of a naive datetime's fields. -/
def timegmQ (dt : MDateTime) : ℚ :=
  dateBase dt + 3600 * (dt.hour : ℚ) + 60 * (dt.minute : ℚ) + (dt.second : ℚ)

/-! ## OpenSky client (`adsb_log_analysis.py` lines 248-323)

The remote service is an oracle from cache keys to outcomes.  A successful
response's `states[0]` row is abstracted directly into the dictionary the
source builds from its indexed fields (indices 1, 5, 6, 7, 9, 10, 11, 13).
The three failure paths of `get_state` — non-200 status, a missing/empty
`states` array, and any transport/decoding exception — all cache and return
`None` in the source and are the three non-`ok` outcomes here. -/

/-- The dictionary `get_state` builds from a state vector row. -/
structure StateResult where
  callsign : Option (List Char)
  lon : Option ℚ
  lat : Option ℚ
  baro_alt_m : Option ℚ
  vel_mps : Option ℚ
  true_track_deg : Option ℚ
  vert_rate_mps : Option ℚ
  geo_alt_m : Option ℚ
deriving DecidableEq

/-- What one live query of `/api/states/all` can come back with. -/
inductive RemoteOutcome where
  | httpError
  | noStates
  | ok (r : StateResult)
  | exn
deriving DecidableEq

/-- A fixed remote service. -/
def NetOracle : Type := List Char × Int → RemoteOutcome

/-- The value `get_state` caches and returns for a key on a live call. -/
def netValue (net : NetOracle) (k : List Char × Int) : Option StateResult :=
  match net k with
  | .ok r => some r
  | _ => none

/-- Client state: the authentication flag (basic auth or an OAuth token
provider present) and the `(icao24, rounded time)` cache dictionary. -/
structure OpenSkyClient where
  authenticated : Bool
  cache : List ((List Char × Int) × Option StateResult)
deriving DecidableEq

/-- Python dict lookup on the cache (keys are inserted at most once). -/
def lookupCache (k : List Char × Int) :
    List ((List Char × Int) × Option StateResult) → Option (Option StateResult)
  | [] => none
  | (k', v) :: rest => if k' = k then some v else lookupCache k rest

/-- `OpenSkyClient.round_query_time`: floor onto a 5 s grid when
authenticated, a 10 s grid otherwise. -/
def round_query_time (epoch_s : Int) (authenticated : Bool) : Int :=
  epoch_s - epoch_s % (if authenticated then 5 else 10)

/-- The cache key `get_state` uses for a request. -/
def keyOf (authenticated : Bool) (req : List Char × Int) : List Char × Int :=
  (req.1, round_query_time req.2 authenticated)

/-- `OpenSkyClient.get_state`: return the cached entry on a hit with no
network access; on a miss issue one live call, cache the outcome (an explicit
`None` on any failure) and return it.  The third component counts the live
calls made (0 or 1). -/
def get_state (net : NetOracle) (c : OpenSkyClient) (icao24 : List Char) (epoch_s : Int) :
    Option StateResult × OpenSkyClient × Nat :=
  let key := keyOf c.authenticated (icao24, epoch_s)
  match lookupCache key c.cache with
  | some v => (v, c, 0)
  | none =>
    let v := netValue net key
    (v, { c with cache := (key, v) :: c.cache }, 1)

/-- Client state after a sequence of `get_state` invocations. -/
def clientAfter (net : NetOracle) (c : OpenSkyClient) : List (List Char × Int) → OpenSkyClient
  | [] => c
  | r :: rs => clientAfter net (get_state net c r.1 r.2).2.1 rs

/-- Live calls made, over a sequence of `get_state` invocations, by the
invocations whose cache key is `k`. -/
def liveFor (net : NetOracle) (c : OpenSkyClient) (k : List Char × Int) :
    List (List Char × Int) → Nat
  | [] => 0
  | r :: rs =>
    let (_, c', n) := get_state net c r.1 r.2
    (if keyOf c.authenticated r = k then n else 0) + liveFor net c' k rs

/-- Every invocation with cache key `k` in the sequence returns the value the
oracle holds for `k`. -/
def respOK (net : NetOracle) (c : OpenSkyClient) (k : List Char × Int) :
    List (List Char × Int) → Prop
  | [] => True
  | r :: rs =>
    (keyOf c.authenticated r = k → (get_state net c r.1 r.2).1 = netValue net k) ∧
      respOK net (get_state net c r.1 r.2).2.1 k rs

/-! ## Enrichment pipeline (`adsb_log_analysis.py`, `analyze`)

The fixed measurement location (module constants of all three scripts). -/

def MEAS_LAT : ℚ := 25 + 1 / 60 + 4 / 3600
def MEAS_LON : ℚ := 121 + 32 / 60 + (389 / 10) / 3600
def MEAS_ALT_M : ℚ := 15

/-- The transcendental primitives of the geometry code, identical in all three
scripts, abstracted as parameters: `hav` is `haversine_m`, `sqrt` is
`math.sqrt`, `atan2deg x y` is `math.degrees(math.atan2(x, y))`. -/
structure GeoPrims where
  hav : ℚ → ℚ → ℚ → ℚ → ℚ
  sqrt : ℚ → ℚ
  atan2deg : ℚ → ℚ → ℚ

/-- The test `lat is None or lon is None or (abs(lat) < 1e-9 and abs(lon) < 1e-9)`
shared by `needs_fill`, the fill step and the geometry functions. -/
def missing_pos (lat lon : Option ℚ) : Bool :=
  match lat, lon with
  | none, _ => true
  | some _, none => true
  | some la, some lo => |la| < 1 / 1000000000 ∧ |lo| < 1 / 1000000000

/-- `alt is None or alt == 0`. -/
def missing_zero (x : Option ℚ) : Bool :=
  match x with
  | none => true
  | some v => v = 0

/-- One row of the input log as read by `pd.read_csv` (each cell a string;
`heading` is meaningful only when the log has a `Heading(°)` column). -/
structure RawRow where
  time : List Char
  message : List Char
  crc : List Char
  dfCol : List Char
  tc : List Char
  icao24 : List Char
  latitude : List Char
  longitude : List Char
  altitude : List Char
  speed : List Char
  heading : List Char
deriving DecidableEq

/-- One parsed row between the numeric-normalization stage and the geometry
stage of `analyze` (the columns the fill loop reads and writes). -/
structure MidRow where
  raw : RawRow
  icao : Option (List Char)
  realEpoch : Int
  lat : Option ℚ
  lon : Option ℚ
  alt : Option ℚ
  spd : Option ℚ
  heading : Option ℚ
deriving DecidableEq

/-- `needs_fill` (`analyze`, lines 414-424). -/
def needs_fill (m : MidRow) : Bool :=
  match m.icao with
  | none => false
  | some _ => missing_pos m.lat m.lon || missing_zero m.alt || missing_zero m.spd

/-- The body of the fill loop after a non-falsy `get_state` result
(`analyze`, lines 441-466): overwrite exactly the fields the *pre-fill* row
has missing, when the lookup supplies them.  `hcol` is
`"Heading(°)" in df.columns`. -/
def applyFill (hcol : Bool) (m : MidRow) (st : Option StateResult) : MidRow :=
  match st with
  | none => m
  | some v =>
    let fillPos := missing_pos m.lat m.lon && v.lat.isSome && v.lon.isSome
    let alt_m : Option ℚ :=
      match v.baro_alt_m with
      | some x => some x
      | none => v.geo_alt_m
    let alt_ft := alt_m.map (fun x => x * ft_per_m)
    let spd_kts := v.vel_mps.map (fun x => x * kts_per_mps)
    { m with
      lat := if fillPos then v.lat else m.lat
      lon := if fillPos then v.lon else m.lon
      alt := if missing_zero m.alt && alt_ft.isSome then alt_ft else m.alt
      spd := if missing_zero m.spd && spd_kts.isSome then spd_kts else m.spd
      heading :=
        if hcol && missing_zero m.heading && v.true_track_deg.isSome then v.true_track_deg
        else m.heading }

/-- Result of the fill loop. -/
structure FillOut where
  rows : List MidRow
  client : OpenSkyClient
  api : Int
  live : Nat
deriving DecidableEq

/-- The OpenSky fill loop (`analyze`, lines 426-469): `break` once the
attempt counter `api_calls` reaches `max_api_calls`, `continue` on rows that
need no fill, otherwise one `get_state` (counted as live only on a cache
miss), one counter increment, and the field overwrites. -/
def fillRows (net : NetOracle) (hcol : Bool) (budget : Int) :
    OpenSkyClient → Int → List MidRow → FillOut
  | c, api, [] => ⟨[], c, api, 0⟩
  | c, api, m :: ms =>
    if budget ≤ api then ⟨m :: ms, c, api, 0⟩
    else if needs_fill m = false then
      let o := fillRows net hcol budget c api ms
      { o with rows := m :: o.rows }
    else
      match m.icao with
      | none =>
        -- unreachable: `needs_fill` requires a known identifier
        let o := fillRows net hcol budget c api ms
        { o with rows := m :: o.rows }
      | some ic =>
        let (st, c1, n) := get_state net c ic m.realEpoch
        let m' := applyFill hcol m st
        let o := fillRows net hcol budget c1 (api + 1) ms
        { o with rows := m' :: o.rows, live := n + o.live }

/-- `compute_dist` (`adsb_log_analysis.py`, lines 479-497): horizontal
great-circle distance, plus the slant range when an altitude is known. -/
def compute_dist (P : GeoPrims) (lat lon alt_ft : Option ℚ) : Option ℚ × Option ℚ :=
  if missing_pos lat lon then (none, none)
  else
    match lat, lon with
    | some la, some lo =>
      let horiz_m := P.hav MEAS_LAT MEAS_LON la lo
      match alt_ft with
      | none => (some horiz_m, none)
      | some a =>
        if a = 0 then (some horiz_m, none)
        else
          let aircraft_alt_m := a / ft_per_m
          let dh_m := aircraft_alt_m - MEAS_ALT_M
          (some horiz_m, some (P.sqrt (horiz_m * horiz_m + dh_m * dh_m)))
    | _, _ => (none, none)

/-- Configuration of one `analyze` run: the module anchor constants (as
seconds of day), the receiver's UTC offset (so that naive `timestamp()` /
`fromtimestamp` round-trips are exact), and the CLI flags. -/
structure AnalyzeConfig where
  a1m : ℚ
  a1r : ℚ
  a2m : ℚ
  a2r : ℚ
  tz : ℚ
  use_opensky : Bool
  max_api_calls : Int
  authenticated : Bool
  hasHeadingCol : Bool

/-- `LinearTimeMapper.from_anchors(date_str)` for a date whose local midnight
is at `base` epoch-as-if-UTC seconds: each anchor's naive `timestamp()` is its
`timegm` value minus the local UTC offset. -/
def mapperFor (cfg : AnalyzeConfig) (base : ℚ) : Except String LinearTimeMapper :=
  LinearTimeMapper.from_anchors
    (base + cfg.a1m - cfg.tz) (base + cfg.a1r - cfg.tz)
    (base + cfg.a2m - cfg.tz) (base + cfg.a2r - cfg.tz)

/-- Column-wise `Series.apply` over fallible code: the first raised exception
aborts the whole run. -/
def mapME (f : α → Except String β) : List α → Except String (List β)
  | [] => .ok []
  | a :: as => do
    let b ← f a
    let bs ← mapME f as
    .ok (b :: bs)

/-- Identity resolution of `analyze` (lines 365-369): the logged `ICAO24`
column normalized, with the DF11 bit-decode as fallback where it is absent
(the fallback runs on `Message_str` and may raise; see
`extract_icao24_from_df11`). -/
def resolveIdentity (icao24 message : List Char) : Except String (Option (List Char)) :=
  match normalize_icao24 icao24 with
  | some v => .ok (some v)
  | none => extract_icao24_from_df11 (removeSpaces (stripWS message))

/-- One record of the enriched output stream. -/
structure EnrichedRow where
  raw : RawRow
  message_str : List Char
  squitter : List Char
  crcN : Option ℚ
  dfN : Option ℚ
  tcN : Option ℚ
  icao_norm : Option (List Char)
  realEpoch : Int
  lat : Option ℚ
  lon : Option ℚ
  alt_ft : Option ℚ
  spd_kts : Option ℚ
  heading : Option ℚ
  distHoriz : Option ℚ
  distSlant : Option ℚ
  tcCat : List Char
deriving DecidableEq

/-- Seed one `MidRow` from the parsed columns (`analyze` lines 390-402):
`RealEpoch = int(RealDT.replace(tzinfo=utc).timestamp())`, and the resolved
kinematic fields start as the logged values. -/
def mkMid (cfg : AnalyzeConfig) (r : RawRow) (ic : Option (List Char)) (rs : ℚ) : MidRow :=
  { raw := r
    icao := ic
    realEpoch := pyIntOfRat (rs + cfg.tz)
    lat := safe_float r.latitude
    lon := safe_float r.longitude
    alt := safe_float r.altitude
    spd := safe_float r.speed
    heading := safe_float r.heading }

/-- Zip the per-column stages back into rows. -/
def zipMids (cfg : AnalyzeConfig) :
    List RawRow → List (Option (List Char)) → List ℚ → List MidRow
  | r :: rs, ic :: ics, q :: qs => mkMid cfg r ic q :: zipMids cfg rs ics qs
  | _, _, _ => []

/-- The geometry / category stage and CSV row assembly (`analyze` lines
471-515, restricted to the emitted columns). -/
def finalizeRow (P : GeoPrims) (m : MidRow) : EnrichedRow :=
  let d := compute_dist P m.lat m.lon m.alt
  { raw := m.raw
    message_str := removeSpaces (stripWS m.raw.message)
    squitter := msg_len_class m.raw.message
    crcN := pyToNumeric m.raw.crc
    dfN := pyToNumeric m.raw.dfCol
    tcN := pyToNumeric m.raw.tc
    icao_norm := m.icao
    realEpoch := m.realEpoch
    lat := m.lat
    lon := m.lon
    alt_ft := m.alt
    spd_kts := m.spd
    heading := m.heading
    distHoriz := d.1
    distSlant := d.2
    tcCat := tc_category (pyToNumeric m.raw.tc) }

/-- The `analyze` pipeline of `adsb_log_analysis.py`, from the parsed CSV to
the enriched record stream, with the number of live OpenSky calls made.
The per-date mapper dictionary of the source is modelled by re-running the
pure `from_anchors` per row (its failure condition does not depend on the
date, so the run fails in exactly the same cases). -/
def analyze (P : GeoPrims) (cfg : AnalyzeConfig) (net : NetOracle) (rows : List RawRow) :
    Except String (List EnrichedRow × Nat) := do
  let icaos ← mapME (fun r => resolveIdentity r.icao24 r.message) rows
  let mats ← mapME (fun r => parse_matlab_timestamp r.time) rows
  let reals ← mapME (fun dt => do
      let L ← mapperFor cfg (dateBase dt)
      .ok (L.map_s (timegmQ dt - cfg.tz))) mats
  let mids := zipMids cfg rows icaos reals
  let fo :=
    if cfg.use_opensky then
      fillRows net cfg.hasHeadingCol cfg.max_api_calls ⟨cfg.authenticated, []⟩ 0 mids
    else ⟨mids, ⟨cfg.authenticated, []⟩, 0, 0⟩
  .ok (fo.rows.map (finalizeRow P), fo.live)

/-! ## The three analysis variants (for the cross-variant claims)

`adsb_log_analysis.py` is embedded above; `LogA` collects its anchor
constants and identity resolution under a variant name.  `RssA` and `SnrA`
re-translate the corresponding functions of `adsb_rss_analysis.py` and
`adsb_snr_analysis.py` from their own sources. -/

namespace LogA

/-- `ANCHOR_1_MATLAB = "17:40:11"` as seconds of day. -/
def A1M : ℚ := 17 * 3600 + 40 * 60 + 11
/-- `ANCHOR_1_REAL = "17:40:11"`. -/
def A1R : ℚ := 17 * 3600 + 40 * 60 + 11
/-- `ANCHOR_2_MATLAB = "17:48:55"`. -/
def A2M : ℚ := 17 * 3600 + 48 * 60 + 55
/-- `ANCHOR_2_REAL = "17:56:30"`. -/
def A2R : ℚ := 17 * 3600 + 56 * 60 + 30

/-- `from_anchors(date_str)` with the log variant's module anchors, for a
date whose anchors sit at `base` plus the anchor's seconds of day. -/
def mapperAt (base : ℚ) : Except String LinearTimeMapper :=
  LinearTimeMapper.from_anchors (base + A1M) (base + A1R) (base + A2M) (base + A2R)

end LogA

namespace RssA

/-- `normalize_icao24` of `adsb_rss_analysis.py` (length test before the
hex-character test). -/
def normalize_icao24 (x : List Char) : Option (List Char) :=
  let s := stripWS x
  if s.isEmpty then none
  else
    let s := lowerStr (removeSpaces s)
    if s.length = 6 ∧ s.all isHexLowerDigit then some s else none

/-- `msg_len_class` of `adsb_rss_analysis.py`. -/
def msg_len_class (message_hex : List Char) : List Char :=
  let s := removeSpaces (stripWS message_hex)
  if s.length = 14 then chars "short"
  else if s.length = 28 then chars "extended"
  else chars "unknown"

/-- Identity resolution of the rss variant's `analyze` (line 328): the
normalized `ICAO24` column only — no DF11 fallback exists in this script. -/
def resolveIdentity (icao24 message : List Char) : Option (List Char) :=
  let _ := message
  normalize_icao24 icao24

/-- Anchors of `adsb_rss_analysis.py` (same values as the log variant). -/
def A1M : ℚ := 17 * 3600 + 40 * 60 + 11
def A1R : ℚ := 17 * 3600 + 40 * 60 + 11
def A2M : ℚ := 17 * 3600 + 48 * 60 + 55
def A2R : ℚ := 17 * 3600 + 56 * 60 + 30

/-- `from_anchors(date_str)` with the rss variant's module anchors. -/
def mapperAt (base : ℚ) : Except String LinearTimeMapper :=
  LinearTimeMapper.from_anchors (base + A1M) (base + A1R) (base + A2M) (base + A2R)

/-- `compute_geometry` of `adsb_rss_analysis.py` (lines 411-427): horizontal
distance, slant range, elevation angle and aircraft altitude in meters. -/
def compute_geometry (P : GeoPrims) (lat lon alt_ft : Option ℚ) :
    Option ℚ × Option ℚ × Option ℚ × Option ℚ :=
  if missing_pos lat lon then (none, none, none, none)
  else
    match lat, lon with
    | some la, some lo =>
      let horiz_m := P.hav MEAS_LAT MEAS_LON la lo
      match alt_ft with
      | none => (some horiz_m, none, none, none)
      | some a =>
        if a = 0 then (some horiz_m, none, none, none)
        else
          let aircraft_alt_m := a / ft_per_m
          let dh_m := aircraft_alt_m - MEAS_ALT_M
          let slant_m := P.sqrt (horiz_m * horiz_m + dh_m * dh_m)
          let elev_deg :=
            if 0 < horiz_m then P.atan2deg dh_m horiz_m
            else if 0 < dh_m then (90 : ℚ) else -90
          (some horiz_m, some slant_m, some elev_deg, some aircraft_alt_m)
    | _, _ => (none, none, none, none)

end RssA

namespace SnrA

/-- `normalize_icao24` of `adsb_snr_analysis.py`. -/
def normalize_icao24 (x : List Char) : Option (List Char) :=
  let s := stripWS x
  if s.isEmpty then none
  else
    let s := lowerStr (removeSpaces s)
    if s.length = 6 ∧ s.all isHexLowerDigit then some s else none

/-- `msg_len_class` of `adsb_snr_analysis.py`. -/
def msg_len_class (message_hex : List Char) : List Char :=
  let s := removeSpaces (stripWS message_hex)
  if s.length = 14 then chars "short"
  else if s.length = 28 then chars "extended"
  else chars "unknown"

/-- Identity resolution of the snr variant's `analyze` (line 243): no DF11
fallback exists in this script either. -/
def resolveIdentity (icao24 message : List Char) : Option (List Char) :=
  let _ := message
  normalize_icao24 icao24

/-- `ANCHOR_1_MATLAB = "16:00:53"` of `adsb_snr_analysis.py`. -/
def A1M : ℚ := 16 * 3600 + 0 * 60 + 53
/-- `ANCHOR_1_REAL = "16:00:53"`. -/
def A1R : ℚ := 16 * 3600 + 0 * 60 + 53
/-- `ANCHOR_2_MATLAB = "16:09:10"`. -/
def A2M : ℚ := 16 * 3600 + 9 * 60 + 10
/-- `ANCHOR_2_REAL = "16:16:30"`. -/
def A2R : ℚ := 16 * 3600 + 16 * 60 + 30

/-- `from_anchors(date_str)` with the snr variant's module anchors. -/
def mapperAt (base : ℚ) : Except String LinearTimeMapper :=
  LinearTimeMapper.from_anchors (base + A1M) (base + A1R) (base + A2M) (base + A2R)

/-- `compute_geometry` of `adsb_snr_analysis.py` (lines 327-343). -/
def compute_geometry (P : GeoPrims) (lat lon alt_ft : Option ℚ) :
    Option ℚ × Option ℚ × Option ℚ × Option ℚ :=
  if missing_pos lat lon then (none, none, none, none)
  else
    match lat, lon with
    | some la, some lo =>
      let horiz_m := P.hav MEAS_LAT MEAS_LON la lo
      match alt_ft with
      | none => (some horiz_m, none, none, none)
      | some a =>
        if a = 0 then (some horiz_m, none, none, none)
        else
          let aircraft_alt_m := a / ft_per_m
          let dh_m := aircraft_alt_m - MEAS_ALT_M
          let slant_m := P.sqrt (horiz_m * horiz_m + dh_m * dh_m)
          let elev_deg :=
            if 0 < horiz_m then P.atan2deg dh_m horiz_m
            else if 0 < dh_m then (90 : ℚ) else -90
          (some horiz_m, some slant_m, some elev_deg, some aircraft_alt_m)
    | _, _ => (none, none, none, none)

end SnrA

/-- A concrete instantiation of the abstract geometry primitives, used for
evaluating the embedded code on concrete inputs. -/
def cPrims : GeoPrims :=
  { hav := fun _ _ _ _ => 5
    sqrt := fun q => q + 1
    atan2deg := fun p q => p - q }

/-- `Except.isOk` (kept local to avoid library-version drift). -/
def exceptOk : Except String α → Bool
  | .ok _ => true
  | .error _ => false

/-! ### Concrete fixtures used to evaluate the embedded code -/

/-- A lookup result with a full kinematic snapshot. -/
def st0 : StateResult :=
  { callsign := none, lon := some 121, lat := some 25, baro_alt_m := some 3000
    vel_mps := some 200, true_track_deg := some 90, vert_rate_mps := none, geo_alt_m := none }

/-- A remote service that always answers with `st0`. -/
def net0 : NetOracle := fun _ => .ok st0

/-- A fresh authenticated client. -/
def client0 : OpenSkyClient := { authenticated := true, cache := [] }

/-- A raw row with every cell blank. -/
def rawBlank : RawRow :=
  { time := [], message := [], crc := [], dfCol := [], tc := [], icao24 := []
    latitude := [], longitude := [], altitude := [], speed := [], heading := [] }

/-- A row that needs a fill (known identity, everything else absent). -/
def mid0 : MidRow :=
  { raw := rawBlank, icao := some (chars "abc123"), realEpoch := 100
    lat := none, lon := none, alt := none, spd := none, heading := none }

/-- A row whose logged position is present and non-zero but inside the code's
`1e-9` sentinel band, with present non-zero altitude and speed. -/
def mid1 : MidRow :=
  { raw := rawBlank, icao := some (chars "abc123"), realEpoch := 100
    lat := some (1 / 10 ^ 10), lon := some (1 / 10 ^ 10)
    alt := some 1000, spd := some 250, heading := none }

/-- A pipeline configuration with the log variant's anchors (Taipei offset),
backfill disabled. -/
def cfg0 : AnalyzeConfig :=
  { a1m := LogA.A1M, a1r := LogA.A1R, a2m := LogA.A2M, a2r := LogA.A2R
    tz := 28800, use_opensky := false, max_api_calls := 5000
    authenticated := false, hasHeadingCol := false }

/-- A raw row whose timestamp string cannot be parsed. -/
def rowBad : RawRow := { rawBlank with time := chars "garbage" }

/-- A raw row with a well-formed timestamp. -/
def rowGood : RawRow := { rawBlank with time := chars "15-Dec-2025 17:00:00" }

end ADSB

/-! # Theorems -/

namespace ADSB

/-- Successful construction unfolded (shared helper). -/
theorem from_anchors_ok (m1s r1s m2s r2s : ℚ) (h : ¬|m2s - m1s| < 1 / 1000000) :
    LinearTimeMapper.from_anchors m1s r1s m2s r2s =
      .ok ⟨(r2s - r1s) / (m2s - m1s), r1s - (r2s - r1s) / (m2s - m1s) * m1s⟩ := by
  unfold LinearTimeMapper.from_anchors
  rw [if_neg h]

/-- C5: for every pair of anchor pairs whose raw epoch seconds differ (which
is forced by successful construction), the `LinearTimeMapper` built from them
has `scale = (true2 - true1) / (raw2 - raw1)` and
`offset = true1 - scale * raw1`, and maps each anchor's raw time back to that
anchor's true time, exactly over the embedded rational arithmetic. -/
theorem from_anchors_roundtrip (m1s r1s m2s r2s : ℚ) (L : LinearTimeMapper)
    (h : LinearTimeMapper.from_anchors m1s r1s m2s r2s = .ok L) :
    L.a = (r2s - r1s) / (m2s - m1s) ∧ L.b = r1s - L.a * m1s ∧
    L.map_s m1s = r1s ∧ L.map_s m2s = r2s := by
  unfold LinearTimeMapper.from_anchors at h
  split at h
  · exact Except.noConfusion h
  next hc =>
    have hne : m2s - m1s ≠ 0 := by
      intro h0
      exact hc (by rw [h0]; norm_num)
    have hL : L = ⟨(r2s - r1s) / (m2s - m1s), r1s - (r2s - r1s) / (m2s - m1s) * m1s⟩ :=
      (Except.ok.inj h).symm
    subst hL
    refine ⟨rfl, rfl, ?_, ?_⟩
    · simp [LinearTimeMapper.map_s]
    · simp only [LinearTimeMapper.map_s]
      field_simp
      ring

/-- Witness for C5 at the concrete anchors `(0, 0)` and `(524, 979)`. -/
theorem from_anchors_roundtrip_witness :
    (⟨(979 - 0) / (524 - 0), 0 - (979 - 0) / (524 - 0) * 0⟩ : LinearTimeMapper).map_s 0 = 0 ∧
    (⟨(979 - 0) / (524 - 0), 0 - (979 - 0) / (524 - 0) * 0⟩ : LinearTimeMapper).map_s 524 = 979 := by
  have h := from_anchors_roundtrip 0 0 524 979 _ (from_anchors_ok 0 0 524 979 (by norm_num))
  exact ⟨h.2.2.1, h.2.2.2⟩

/-- C6: `from_anchors` fails with the degenerate-anchor `ValueError` exactly
when the two MATLAB anchor epoch seconds agree within `1e-6` seconds, and
succeeds in every other case. -/
theorem from_anchors_fails_iff (m1s r1s m2s r2s : ℚ) :
    ((∃ e, LinearTimeMapper.from_anchors m1s r1s m2s r2s = .error e) ↔
      |m2s - m1s| < 1 / 1000000) ∧
    ((∃ L, LinearTimeMapper.from_anchors m1s r1s m2s r2s = .ok L) ↔
      ¬|m2s - m1s| < 1 / 1000000) := by
  unfold LinearTimeMapper.from_anchors
  by_cases hc : |m2s - m1s| < 1 / 1000000
  · rw [if_pos hc]
    simp only [Except.error.injEq, exists_eq', true_iff, reduceCtorEq, exists_false,
      false_iff, not_not]
    exact ⟨hc, hc⟩
  · rw [if_neg hc]
    simp only [reduceCtorEq, exists_false, false_iff, Except.ok.injEq, exists_eq',
      true_iff, not_lt]
    exact ⟨not_lt.mp hc, not_lt.mp hc⟩

/-- C7 (amended: the code's "no fix" sentinel accepts any position with both
coordinates within `1e-9` of zero, not only the exact `(0, 0)` pair): with
position missing or sentinel every geometry field is absent; otherwise the
horizontal distance is always produced; slant range and elevation are
produced exactly when the altitude is present and non-zero, with
`slant = sqrt(horiz² + dh²)`, `elevation = atan2(dh, horiz)` in degrees for
`horiz > 0`, and `±90°` by the sign of `dh` when `horiz = 0`
(`dh = alt_ft / 3.280839895 - receiver altitude`). -/
theorem compute_geometry_fields (P : GeoPrims) (lat lon alt : Option ℚ) :
    (missing_pos lat lon = true →
      RssA.compute_geometry P lat lon alt = (none, none, none, none)) ∧
    (∀ la lo, lat = some la → lon = some lo → missing_pos lat lon = false →
      ((RssA.compute_geometry P lat lon alt).1 = some (P.hav MEAS_LAT MEAS_LON la lo) ∧
       ((alt = none ∨ alt = some 0) →
         RssA.compute_geometry P lat lon alt =
           (some (P.hav MEAS_LAT MEAS_LON la lo), none, none, none)) ∧
       (∀ a, alt = some a → a ≠ 0 →
         ((RssA.compute_geometry P lat lon alt).2.1 =
            some (P.sqrt (P.hav MEAS_LAT MEAS_LON la lo * P.hav MEAS_LAT MEAS_LON la lo +
              (a / ft_per_m - MEAS_ALT_M) * (a / ft_per_m - MEAS_ALT_M))) ∧
          (0 < P.hav MEAS_LAT MEAS_LON la lo →
            (RssA.compute_geometry P lat lon alt).2.2.1 =
              some (P.atan2deg (a / ft_per_m - MEAS_ALT_M) (P.hav MEAS_LAT MEAS_LON la lo))) ∧
          (P.hav MEAS_LAT MEAS_LON la lo = 0 →
            (RssA.compute_geometry P lat lon alt).2.2.1 =
              some (if 0 < a / ft_per_m - MEAS_ALT_M then (90 : ℚ) else -90)) ∧
          (RssA.compute_geometry P lat lon alt).2.2.2 = some (a / ft_per_m))))) := by
  constructor
  · intro hm
    simp [RssA.compute_geometry, hm]
  · rintro la lo rfl rfl hm
    simp only [RssA.compute_geometry, hm, Bool.false_eq_true, if_false]
    rcases alt with _ | a
    · exact ⟨rfl, fun _ => rfl, fun a h => Option.noConfusion h⟩
    · by_cases ha : a = 0
      · subst ha
        refine ⟨by simp, fun _ => by simp, ?_⟩
        rintro b hb hnz
        exact absurd (Option.some.inj hb).symm hnz
      · simp only [if_neg ha]
        refine ⟨by simp, ?_, ?_⟩
        · rintro (h | h)
          · exact Option.noConfusion h
          · exact absurd (Option.some.inj h) ha
        · rintro b hb hnz
          cases Option.some.inj hb
          refine ⟨by simp, ?_, ?_, by simp⟩
          · intro hpos
            simp [hpos]
          · intro hz
            simp [hz]

/-- Witness for C7 at a present position `(10, 20)` and altitude `1000`. -/
theorem compute_geometry_fields_witness :
    (RssA.compute_geometry cPrims (some 10) (some 20) (some 1000)).1 =
      some (cPrims.hav MEAS_LAT MEAS_LON 10 20) ∧
    (RssA.compute_geometry cPrims (some 10) (some 20) (some 1000)).2.1 =
      some (cPrims.sqrt (cPrims.hav MEAS_LAT MEAS_LON 10 20 * cPrims.hav MEAS_LAT MEAS_LON 10 20 +
        (1000 / ft_per_m - MEAS_ALT_M) * (1000 / ft_per_m - MEAS_ALT_M))) ∧
    (RssA.compute_geometry cPrims (some 10) (some 20) (some 1000)).2.2.1 =
      some (cPrims.atan2deg (1000 / ft_per_m - MEAS_ALT_M) (cPrims.hav MEAS_LAT MEAS_LON 10 20)) := by
  have h := compute_geometry_fields cPrims (some 10) (some 20) (some 1000)
  have h2 := h.2 10 20 rfl rfl (by norm_num [missing_pos])
  have h3 := h2.2.2 1000 rfl (by norm_num)
  exact ⟨h2.1, h3.1, h3.2.1 (by norm_num [cPrims])⟩

/-- Counterexample to C7 as stated: the position `(1e-10, 1e-10)` is present
and differs from `(0, 0)`, yet the code returns every geometry field absent
(its sentinel test is `|lat| < 1e-9 and |lon| < 1e-9`, not equality with
zero). -/
theorem compute_geometry_counterexample :
    RssA.compute_geometry cPrims (some (1 / 10 ^ 10)) (some (1 / 10 ^ 10)) (some 1000) =
      (none, none, none, none) ∧ (1 / 10 ^ 10 : ℚ) ≠ 0 := by
  have habs : |(1 : ℚ) / 10 ^ 10| = 1 / 10 ^ 10 := abs_of_pos (by norm_num)
  have hm : missing_pos (some ((1 : ℚ) / 10 ^ 10)) (some ((1 : ℚ) / 10 ^ 10)) = true := by
    simp only [missing_pos, decide_eq_true_eq, habs]
    norm_num
  refine ⟨?_, by norm_num⟩
  rw [RssA.compute_geometry, if_pos hm]

/-- C9 (amended): across the three analysis variants, the geometry kernels,
identifier normalization, message classification and time-mapper algorithm
are identical — the rss and snr `compute_geometry` agree on every input, the
log variant's `compute_dist` is their horizontal/slant projection, the three
`normalize_icao24`/`msg_len_class` agree, and the log and rss variants build
the same time map from the same anchors.  But the variants are not fully
interchangeable: the snr variant's different anchor constants give a
different time map, and the DF11 identity fallback exists only in the log
variant. -/
theorem variants_shared_logic :
    (∀ P lat lon alt, RssA.compute_geometry P lat lon alt = SnrA.compute_geometry P lat lon alt) ∧
    (∀ P lat lon alt, compute_dist P lat lon alt =
      ((RssA.compute_geometry P lat lon alt).1, (RssA.compute_geometry P lat lon alt).2.1)) ∧
    (∀ x, normalize_icao24 x = RssA.normalize_icao24 x) ∧
    (∀ x, RssA.normalize_icao24 x = SnrA.normalize_icao24 x) ∧
    (∀ m, msg_len_class m = RssA.msg_len_class m) ∧
    (∀ m, RssA.msg_len_class m = SnrA.msg_len_class m) ∧
    (∀ base, LogA.mapperAt base = RssA.mapperAt base) ∧
    LogA.mapperAt 0 ≠ SnrA.mapperAt 0 ∧
    resolveIdentity (chars "") (chars "58abcdef012345") = .ok (some (chars "abcdef")) ∧
    RssA.resolveIdentity (chars "") (chars "58abcdef012345") = none := by
  refine ⟨fun P lat lon alt => rfl, ?_, ?_, fun x => rfl, fun m => rfl, fun m => rfl,
    fun base => rfl, ?_, rfl, rfl⟩
  · intro P lat lon alt
    by_cases hm : missing_pos lat lon = true
    · simp [compute_dist, RssA.compute_geometry, hm]
    · simp only [compute_dist, RssA.compute_geometry, hm, Bool.false_eq_true, if_false]
      rcases lat with _ | la <;> rcases lon with _ | lo <;> try rfl
      rcases alt with _ | a
      · rfl
      · by_cases ha : a = 0 <;> simp [ha]
  · intro x
    unfold normalize_icao24 RssA.normalize_icao24
    by_cases he : (stripWS x).isEmpty = true
    · rw [if_pos he, if_pos he]
    · rw [if_neg he, if_neg he]
      exact if_congr and_comm rfl rfl
  · intro h
    have h1 := from_anchors_ok (0 + LogA.A1M) (0 + LogA.A1R) (0 + LogA.A2M) (0 + LogA.A2R)
      (by norm_num [LogA.A1M, LogA.A2M])
    have h2 := from_anchors_ok (0 + SnrA.A1M) (0 + SnrA.A1R) (0 + SnrA.A2M) (0 + SnrA.A2R)
      (by norm_num [SnrA.A1M, SnrA.A2M])
    unfold LogA.mapperAt SnrA.mapperAt at h
    rw [h1, h2] at h
    have ha := congrArg LinearTimeMapper.a (Except.ok.inj h)
    norm_num [LogA.A1M, LogA.A1R, LogA.A2M, LogA.A2R,
      SnrA.A1M, SnrA.A1R, SnrA.A2M, SnrA.A2R] at ha

/-- Counterexample to C9 as stated: on a row with a blank identifier column
and the decodable DF11 payload `58abcdef012345`, the log variant's identity
resolution produces `abcdef` while the rss and snr variants produce absent —
the three variants' identity-resolution functions do not produce equal
results on every input. -/
theorem variants_counterexample :
    resolveIdentity (chars "") (chars "58abcdef012345") = .ok (some (chars "abcdef")) ∧
    RssA.resolveIdentity (chars "") (chars "58abcdef012345") = none ∧
    SnrA.resolveIdentity (chars "") (chars "58abcdef012345") = none ∧
    some (chars "abcdef") ≠ (none : Option (List Char)) := by
  exact ⟨rfl, rfl, rfl, fun h => Option.noConfusion h⟩

/-! ### Helper lemmas for the identity normal form (C10) -/

theorem mem_of_mem_stripWS {c : Char} {s : List Char} (h : c ∈ stripWS s) : c ∈ s := by
  unfold stripWS at h
  rw [List.mem_reverse] at h
  have h1 := (List.dropWhile_sublist (p := isPyWS)).subset h
  rw [List.mem_reverse] at h1
  exact (List.dropWhile_sublist (p := isPyWS)).subset h1

theorem stripWS_length_le (s : List Char) : (stripWS s).length ≤ s.length := by
  unfold stripWS
  calc ((s.dropWhile isPyWS).reverse.dropWhile isPyWS).reverse.length
      = ((s.dropWhile isPyWS).reverse.dropWhile isPyWS).length := List.length_reverse _
    _ ≤ (s.dropWhile isPyWS).reverse.length := (List.dropWhile_sublist _).length_le
    _ = (s.dropWhile isPyWS).length := List.length_reverse _
    _ ≤ s.length := (List.dropWhile_sublist _).length_le

theorem binDigitsAux_chars :
    ∀ (f n : Nat) (c : Char), c ∈ binDigitsAux f n → c = '0' ∨ c = '1' := by
  intro f
  induction f with
  | zero => intro n c h; simp [binDigitsAux] at h
  | succ f ih =>
    intro n c h
    unfold binDigitsAux at h
    by_cases hn : n = 0
    · simp [hn] at h
    · rw [if_neg hn] at h
      rcases List.mem_append.mp h with h1 | h1
      · exact ih _ _ h1
      · rcases List.mem_singleton.mp h1 with rfl
        by_cases hm : n % 2 = 1 <;> simp [hm]

theorem natBinDigits_chars {n : Nat} {c : Char} (h : c ∈ natBinDigits n) :
    c = '0' ∨ c = '1' := by
  unfold natBinDigits at h
  by_cases hn : n = 0
  · simp [hn] at h
    simp [h]
  · rw [if_neg hn] at h
    exact binDigitsAux_chars _ _ _ h

theorem pyBin_drop2_chars {v : Int} {c : Char} (h : c ∈ (pyBin v).drop 2) :
    c = '0' ∨ c = '1' ∨ c = 'b' := by
  unfold pyBin at h
  by_cases hv : v < 0
  · rw [if_pos hv] at h
    simp only [List.drop_succ_cons, List.drop_zero] at h
    rcases List.mem_cons.mp h with rfl | h1
    · right; right; rfl
    · rcases natBinDigits_chars h1 with h2 | h2 <;> simp [h2]
  · rw [if_neg hv] at h
    simp only [List.drop_succ_cons, List.drop_zero] at h
    rcases natBinDigits_chars h with h2 | h2 <;> simp [h2]

theorem zfill_chars {w : Nat} {s : List Char} {c : Char} (h : c ∈ zfill w s) :
    c = '0' ∨ c ∈ s := by
  unfold zfill at h
  rcases List.mem_append.mp h with h1 | h1
  · exact Or.inl (List.eq_of_mem_replicate h1)
  · exact Or.inr h1

theorem tableVal_lt {b : Nat} {t : List (Char × Nat)} (ht : ∀ p ∈ t, p.2 < b)
    {c : Char} {d : Nat} (h : tableVal c t = some d) : d < b := by
  induction t with
  | nil => simp [tableVal] at h
  | cons p rest ih =>
    rcases p with ⟨c', d'⟩
    unfold tableVal at h
    by_cases hc : c' = c
    · rw [if_pos hc] at h
      cases Option.some.inj h
      exact ht _ (List.mem_cons_self _ _)
    · rw [if_neg hc] at h
      exact ih (fun p hp => ht p (List.mem_cons_of_mem _ hp)) h

theorem baseDigitVal_lt {base : Nat} (hb : base = 2 ∨ base = 16) {c : Char} {d : Nat}
    (h : baseDigitVal base c = some d) : d < base := by
  rcases hb with rfl | rfl
  · have h' : tableVal c [('0', 0), ('1', 1)] = some d := by
      simpa [baseDigitVal] using h
    exact tableVal_lt (by decide) h'
  · have h' : tableVal c hexDigitTable = some d := by
      simpa [baseDigitVal] using h
    exact tableVal_lt (t := hexDigitTable) (by decide) h'

theorem parseDigitsGo_lt {base : Nat} (hb : base = 2 ∨ base = 16) :
    ∀ (l : List Char) (acc : Nat) (pu : Bool) (v : Nat),
      parseDigitsGo base acc pu l = some v → v < (acc + 1) * base ^ l.length := by
  have hb1 : 1 ≤ base := by rcases hb with rfl | rfl <;> norm_num
  intro l
  induction l with
  | nil =>
    intro acc pu v h
    cases pu <;> simp [parseDigitsGo] at h
    rw [← h]
    simp
  | cons ch rest ih =>
    intro acc pu v h
    unfold parseDigitsGo at h
    by_cases hc : ch = '_'
    · rw [if_pos hc] at h
      by_cases hp : pu = true
      · rw [if_pos hp] at h; exact Option.noConfusion h
      · rw [if_neg hp] at h
        calc v < (acc + 1) * base ^ rest.length := ih acc true v h
          _ ≤ (acc + 1) * base ^ (ch :: rest).length :=
            Nat.mul_le_mul_left _ (Nat.pow_le_pow_right hb1 (by simp))
    · rw [if_neg hc] at h
      rcases hd : baseDigitVal base ch with _ | d
      · rw [hd] at h; exact Option.noConfusion h
      · rw [hd] at h
        have hdb : d < base := baseDigitVal_lt hb hd
        have hstep : base * acc + d + 1 ≤ base * (acc + 1) := by
          have hexp : base * (acc + 1) = base * acc + base := by ring
          omega
        calc v < (base * acc + d + 1) * base ^ rest.length := ih _ false v h
          _ ≤ (base * (acc + 1)) * base ^ rest.length :=
            Nat.mul_le_mul_right _ hstep
          _ = (acc + 1) * base ^ (ch :: rest).length := by
            simp only [List.length_cons, pow_succ]
            ring

theorem parseDigitSeq_lt {base : Nat} (hb : base = 2 ∨ base = 16)
    {l : List Char} {v : Nat} (h : parseDigitSeq base l = some v) : v < base ^ l.length := by
  rcases l with _ | ⟨ch, rest⟩
  · simp [parseDigitSeq] at h
  · simp only [parseDigitSeq] at h
    by_cases hc : ch = '_'
    · rw [if_pos hc] at h; exact Option.noConfusion h
    · rw [if_neg hc] at h
      rcases hd : baseDigitVal base ch with _ | d
      · rw [hd] at h; exact Option.noConfusion h
      · rw [hd] at h
        have hdb : d < base := baseDigitVal_lt hb hd
        calc v < (d + 1) * base ^ rest.length := parseDigitsGo_lt hb rest d false v h
          _ ≤ base * base ^ rest.length := Nat.mul_le_mul_right _ (by omega)
          _ = base ^ (ch :: rest).length := by
            simp only [List.length_cons, pow_succ]
            ring

theorem parseUnsignedInt_lt {base : Nat} (hb : base = 2 ∨ base = 16) {pc PC : Char}
    {s : List Char} {v : Nat} (h : parseUnsignedInt base pc PC s = some v) :
    v < base ^ s.length := by
  have hb1 : 1 ≤ base := by rcases hb with rfl | rfl <;> norm_num
  have hmono : ∀ (l l' : List Char), l.length ≤ l'.length →
      parseDigitSeq base l = some v → v < base ^ l'.length :=
    fun l l' hl hseq => lt_of_lt_of_le (parseDigitSeq_lt hb hseq) (Nat.pow_le_pow_right hb1 hl)
  rcases s with _ | ⟨c0, s1⟩
  · simp [parseUnsignedInt, parseDigitSeq] at h
  rcases s1 with _ | ⟨c, rest⟩
  · exact hmono _ _ (le_refl _) h
  simp only [parseUnsignedInt] at h
  by_cases hpre : c0 = '0' ∧ (c = pc ∨ c = PC)
  · rw [if_pos hpre] at h
    rcases rest with _ | ⟨r1, rest2⟩
    · exact hmono _ _ (by simp) h
    · dsimp only at h
      by_cases hr : r1 = '_'
      · rw [if_pos hr] at h
        exact hmono _ _ (by simp; omega) h
      · rw [if_neg hr] at h
        exact hmono _ _ (by simp) h
  · rw [if_neg hpre] at h
    exact hmono _ _ (le_refl _) h

theorem pyIntBase_natAbs_lt {base : Nat} (hb : base = 2 ∨ base = 16) {pc PC : Char}
    {s : List Char} {v : Int} (h : pyIntBase base pc PC s = some v) :
    v.natAbs < base ^ s.length := by
  have hb1 : 1 ≤ base := by rcases hb with rfl | rfl <;> norm_num
  have hmono : ∀ (l : List Char), l.length ≤ s.length →
      ∀ (n : Nat), n < base ^ l.length → n < base ^ s.length :=
    fun l hl n hn => lt_of_lt_of_le hn (Nat.pow_le_pow_right hb1 hl)
  unfold pyIntBase at h
  split at h
  next c rest heq =>
    have hslen : rest.length + 1 ≤ s.length := by
      have h1 := stripWS_length_le s
      rw [heq] at h1
      simpa using h1
    by_cases hplus : c = '+'
    · rw [if_pos hplus] at h
      rcases hu : parseUnsignedInt base pc PC rest with _ | n
      · rw [hu] at h; exact Option.noConfusion h
      · rw [hu] at h
        cases Option.some.inj h
        exact hmono rest (by omega) _ (parseUnsignedInt_lt hb hu)
    · rw [if_neg hplus] at h
      by_cases hneg : c = '-'
      · rw [if_pos hneg] at h
        rcases hu : parseUnsignedInt base pc PC rest with _ | n
        · rw [hu] at h; exact Option.noConfusion h
        · rw [hu] at h
          cases Option.some.inj h
          simpa using hmono rest (by omega) _ (parseUnsignedInt_lt hb hu)
      · rw [if_neg hneg] at h
        rcases hu : parseUnsignedInt base pc PC (c :: rest) with _ | n
        · rw [hu] at h; exact Option.noConfusion h
        · rw [hu] at h
          cases Option.some.inj h
          exact hmono (c :: rest) (by simpa using hslen) _ (parseUnsignedInt_lt hb hu)
  next =>
    exact Option.noConfusion h

theorem pyIntBase_nonneg {base : Nat} {pc PC : Char} {s : List Char} {v : Int}
    (hminus : '-' ∉ s) (h : pyIntBase base pc PC s = some v) : 0 ≤ v := by
  unfold pyIntBase at h
  split at h
  next c rest heq =>
    by_cases hplus : c = '+'
    · rw [if_pos hplus] at h
      rcases hu : parseUnsignedInt base pc PC rest with _ | n
      · rw [hu] at h; exact Option.noConfusion h
      · rw [hu] at h; cases Option.some.inj h; exact Int.ofNat_nonneg n
    · rw [if_neg hplus] at h
      by_cases hneg : c = '-'
      · subst hneg
        exact absurd (mem_of_mem_stripWS (heq ▸ List.mem_cons_self '-' rest)) hminus
      · rw [if_neg hneg] at h
        rcases hu : parseUnsignedInt base pc PC (c :: rest) with _ | n
        · rw [hu] at h; exact Option.noConfusion h
        · rw [hu] at h; cases Option.some.inj h; exact Int.ofNat_nonneg n
  next =>
    exact Option.noConfusion h

theorem hexChar_hex : ∀ d, d < 16 → isHexLowerDigit (hexChar d) = true := by decide

theorem hexDigitsAux_length :
    ∀ (f n k : Nat), n < 16 ^ k → (hexDigitsAux f n).length ≤ k := by
  intro f
  induction f with
  | zero => intro n k _; simp [hexDigitsAux]
  | succ f ih =>
    intro n k hk
    unfold hexDigitsAux
    by_cases hn : n = 0
    · simp [hn]
    · rw [if_neg hn]
      have hk1 : 1 ≤ k := by
        by_contra hk0
        interval_cases k
        omega
      have hdiv : n / 16 < 16 ^ (k - 1) := by
        rw [Nat.div_lt_iff_lt_mul (by norm_num)]
        calc n < 16 ^ k := hk
          _ = 16 ^ (k - 1) * 16 := by
            rw [← pow_succ]
            congr 1
            omega
      have := ih (n / 16) (k - 1) hdiv
      simp only [List.length_append, List.length_singleton]
      omega

theorem hexDigitsAux_chars :
    ∀ (f n : Nat) (c : Char), c ∈ hexDigitsAux f n → isHexLowerDigit c = true := by
  intro f
  induction f with
  | zero => intro n c h; simp [hexDigitsAux] at h
  | succ f ih =>
    intro n c h
    unfold hexDigitsAux at h
    by_cases hn : n = 0
    · simp [hn] at h
    · rw [if_neg hn] at h
      rcases List.mem_append.mp h with h1 | h1
      · exact ih _ _ h1
      · rcases List.mem_singleton.mp h1 with rfl
        exact hexChar_hex _ (Nat.mod_lt _ (by norm_num))

theorem natHexDigits_length {n k : Nat} (hk : 1 ≤ k) (h : n < 16 ^ k) :
    (natHexDigits n).length ≤ k := by
  unfold natHexDigits
  by_cases hn : n = 0
  · simpa [hn] using hk
  · rw [if_neg hn]
    exact hexDigitsAux_length n n k h

theorem natHexDigits_chars {n : Nat} {c : Char} (h : c ∈ natHexDigits n) :
    isHexLowerDigit c = true := by
  unfold natHexDigits at h
  by_cases hn : n = 0
  · simp [hn] at h
    simp [h, isHexLowerDigit, chars]
  · rw [if_neg hn] at h
    exact hexDigitsAux_chars _ _ _ h

theorem pyHex06_normal {v : Int} (h0 : 0 ≤ v) (hlt : v.natAbs < 16 ^ 6) :
    (pyHex06 v).length = 6 ∧ (pyHex06 v).all isHexLowerDigit = true := by
  unfold pyHex06
  rw [if_neg (by omega)]
  have hlen : (natHexDigits v.natAbs).length ≤ 6 := natHexDigits_length (by norm_num) hlt
  constructor
  · simp only [List.length_append, List.length_replicate]
    omega
  · rw [List.all_eq_true]
    intro c hc
    rcases List.mem_append.mp hc with h1 | h1
    · rcases List.eq_of_mem_replicate h1 with rfl
      decide
    · exact natHexDigits_chars h1

theorem hex_char_props {c : Char} (h : isHexLowerDigit c = true) :
    isPyWS c = false ∧ c ≠ ' ' ∧ asciiLower c = c := by
  have hm : c ∈ chars "0123456789abcdef" := by
    simpa [isHexLowerDigit, List.contains, List.elem_iff] using h
  fin_cases hm <;> exact ⟨rfl, by decide, by decide⟩

theorem dropWhile_eq_self_of {p : Char → Bool} {l : List Char}
    (h : ∀ c ∈ l, p c = false) : l.dropWhile p = l := by
  cases l with
  | nil => rfl
  | cons c rest =>
    rw [List.dropWhile_cons, h c (List.mem_cons_self _ _)]
    simp

theorem map_eq_self_of {f : Char → Char} {l : List Char}
    (h : ∀ c ∈ l, f c = c) : l.map f = l := by
  induction l with
  | nil => rfl
  | cons c rest ih =>
    rw [List.map_cons, h c (List.mem_cons_self _ _),
      ih (fun c hc => h c (List.mem_cons_of_mem _ hc))]

/-- Six lowercase hex characters are a fixed point of `normalize_icao24`. -/
theorem normalize_fixed {r : List Char} (h6 : r.length = 6)
    (hh : r.all isHexLowerDigit = true) : normalize_icao24 r = some r := by
  have hmem : ∀ c ∈ r, isHexLowerDigit c = true := List.all_eq_true.mp hh
  have hstrip : stripWS r = r := by
    unfold stripWS
    have h1 : r.dropWhile isPyWS = r :=
      dropWhile_eq_self_of (fun c hc => (hex_char_props (hmem c hc)).1)
    rw [h1]
    have h2 : r.reverse.dropWhile isPyWS = r.reverse :=
      dropWhile_eq_self_of (fun c hc => (hex_char_props (hmem c (List.mem_reverse.mp hc))).1)
    rw [h2, List.reverse_reverse]
  have hspaces : removeSpaces r = r := by
    unfold removeSpaces
    rw [List.filter_eq_self]
    intro c hc
    simpa using (hex_char_props (hmem c hc)).2.1
  have hlower : lowerStr r = r :=
    map_eq_self_of (fun c hc => (hex_char_props (hmem c hc)).2.2)
  have hne : r.isEmpty = false := by
    cases r
    · simp at h6
    · rfl
  unfold normalize_icao24
  rw [hstrip]
  dsimp only
  rw [hne]
  simp only [Bool.false_eq_true, if_false]
  rw [hspaces, hlower, if_pos ⟨hh, h6⟩]

/-- C10: every identifier produced by `extract_icao24_from_df11` is exactly 6
lowercase hex characters and is a fixed point of `normalize_icao24`, and
`normalize_icao24` is idempotent on every input it accepts, so all identities
entering the pipeline are in the same normal form. -/
theorem identity_normal_form :
    (∀ s r, extract_icao24_from_df11 s = .ok (some r) →
      r.length = 6 ∧ r.all isHexLowerDigit = true ∧ normalize_icao24 r = some r) ∧
    (∀ x t, normalize_icao24 x = some t → normalize_icao24 t = some t) := by
  constructor
  · intro s r h
    unfold extract_icao24_from_df11 at h
    dsimp only at h
    split at h
    · exact Option.noConfusion (Except.ok.inj h)
    split at h
    · exact Option.noConfusion (Except.ok.inj h)
    next n hhex =>
      split at h
      · exact Except.noConfusion h
      next df hdf =>
        split at h
        · exact Option.noConfusion (Except.ok.inj h)
        split at h
        · exact Except.noConfusion h
        next aa haa =>
          have hr : r = pyHex06 aa := (Option.some.inj (Except.ok.inj h)).symm
          subst hr
          set bits := zfill 56 ((pyBin n).drop 2) with hbits
          have hbl : 56 ≤ bits.length := by
            rw [hbits]
            unfold zfill
            simp only [List.length_append, List.length_replicate]
            omega
          have hlen24 : ((bits.drop 8).take 24).length = 24 := by
            rw [List.length_take, List.length_drop]
            omega
          have hnominus : '-' ∉ (bits.drop 8).take 24 := by
            intro hc
            have hc1 : '-' ∈ bits := List.mem_of_mem_drop (List.mem_of_mem_take hc)
            rw [hbits] at hc1
            rcases zfill_chars hc1 with h1 | h1
            · exact absurd h1 (by decide)
            · rcases pyBin_drop2_chars h1 with h2 | h2 | h2 <;> exact absurd h2 (by decide)
          have h0 : 0 ≤ aa := pyIntBase_nonneg hnominus haa
          have hlt : aa.natAbs < 16 ^ 6 := by
            have := pyIntBase_natAbs_lt (Or.inl rfl) haa
            rw [hlen24] at this
            calc aa.natAbs < 2 ^ 24 := this
              _ ≤ 16 ^ 6 := by norm_num
          obtain ⟨hl6, hall⟩ := pyHex06_normal h0 hlt
          exact ⟨hl6, hall, normalize_fixed hl6 hall⟩
  · intro x t h
    unfold normalize_icao24 at h
    dsimp only at h
    split at h
    · exact Option.noConfusion h
    split at h
    next hcond =>
      cases Option.some.inj h
      exact normalize_fixed hcond.2 hcond.1
    · exact Option.noConfusion h

/-- Witness for C10 on the concrete DF11 message `58abcdef012345`. -/
theorem identity_normal_form_witness :
    (chars "abcdef").length = 6 ∧ (chars "abcdef").all isHexLowerDigit = true ∧
    normalize_icao24 (chars "abcdef") = some (chars "abcdef") := by
  exact identity_normal_form.1 (chars "58abcdef012345") (chars "abcdef") rfl

/-! ### Helper lemmas for the cache discipline (C3) -/

theorem get_state_hit {net : NetOracle} {c : OpenSkyClient} {ic : List Char} {ep : Int}
    {v : Option StateResult} (h : lookupCache (keyOf c.authenticated (ic, ep)) c.cache = some v) :
    get_state net c ic ep = (v, c, 0) := by
  unfold get_state
  dsimp only
  rw [h]

theorem get_state_miss {net : NetOracle} {c : OpenSkyClient} {ic : List Char} {ep : Int}
    (h : lookupCache (keyOf c.authenticated (ic, ep)) c.cache = none) :
    get_state net c ic ep =
      (netValue net (keyOf c.authenticated (ic, ep)),
       { c with cache := (keyOf c.authenticated (ic, ep),
           netValue net (keyOf c.authenticated (ic, ep))) :: c.cache }, 1) := by
  unfold get_state
  dsimp only
  rw [h]

theorem get_state_auth (net : NetOracle) (c : OpenSkyClient) (ic : List Char) (ep : Int) :
    (get_state net c ic ep).2.1.authenticated = c.authenticated := by
  unfold get_state
  dsimp only
  rcases h : lookupCache (keyOf c.authenticated (ic, ep)) c.cache with _ | v <;> rfl

theorem get_state_lookup_other {net : NetOracle} {c : OpenSkyClient} {ic : List Char}
    {ep : Int} {k : List Char × Int} (hk : keyOf c.authenticated (ic, ep) ≠ k) :
    lookupCache k (get_state net c ic ep).2.1.cache = lookupCache k c.cache := by
  unfold get_state
  dsimp only
  rcases h : lookupCache (keyOf c.authenticated (ic, ep)) c.cache with _ | v
  · show lookupCache k ((keyOf c.authenticated (ic, ep),
      netValue net (keyOf c.authenticated (ic, ep))) :: c.cache) = lookupCache k c.cache
    simp only [lookupCache]
    rw [if_neg hk]
  · rfl

/-- After the value for `k` is cached, every further invocation with key `k`
is a zero-call cache hit returning that value, and the entry survives. -/
theorem runSeq_cached (net : NetOracle) (k : List Char × Int) :
    ∀ (reqs : List (List Char × Int)) (c : OpenSkyClient),
      lookupCache k c.cache = some (netValue net k) →
      liveFor net c k reqs = 0 ∧ respOK net c k reqs ∧
      lookupCache k (clientAfter net c reqs).cache = some (netValue net k) := by
  intro reqs
  induction reqs with
  | nil => intro c h; exact ⟨rfl, trivial, h⟩
  | cons r rs ih =>
    intro c h
    by_cases hk : keyOf c.authenticated r = k
    · have hhit : lookupCache (keyOf c.authenticated (r.1, r.2)) c.cache =
          some (netValue net k) := by
        rw [show ((r.1, r.2) : List Char × Int) = r from rfl, hk]
        exact h
      have hst := @get_state_hit net _ _ _ _ hhit
      obtain ⟨hl, hr, hc⟩ := ih c h
      refine ⟨?_, ⟨?_, ?_⟩, ?_⟩
      · unfold liveFor
        rw [hst]
        dsimp only
        rw [if_pos hk, hl]
      · intro _
        rw [hst]
      · show respOK net (get_state net c r.1 r.2).2.1 k rs
        rw [hst]
        exact hr
      · unfold clientAfter
        rw [hst]
        exact hc
    · have hpres : lookupCache k (get_state net c r.1 r.2).2.1.cache =
          lookupCache k c.cache := get_state_lookup_other hk
      have hauth := get_state_auth net c r.1 r.2
      obtain ⟨hl, hr, hc⟩ := ih (get_state net c r.1 r.2).2.1 (by rw [hpres]; exact h)
      refine ⟨?_, ⟨fun hkk => absurd hkk hk, hr⟩, ?_⟩
      · unfold liveFor
        rcases hst : get_state net c r.1 r.2 with ⟨v, c1, n⟩
        rw [hst] at hl
        dsimp only
        rw [if_neg hk, hl]
      · unfold clientAfter
        exact hc

/-- C3: across any sequence of `get_state` invocations on a client whose
cache has no entry for the key `k`, exactly one live call is made for `k` if
any invocation quantizes to `k` (zero otherwise); every invocation with key
`k` returns the single value the remote service yields for `k` (`None` is
stored and returned — without propagating — on a non-200 response, an empty
state list, or a transport/decoding exception); and that value sits in the
cache afterwards. -/
theorem backfill_single_call (net : NetOracle) (k : List Char × Int) :
    ((net k = .httpError ∨ net k = .noStates ∨ net k = .exn) → netValue net k = none) ∧
    ∀ (reqs : List (List Char × Int)) (c : OpenSkyClient),
      lookupCache k c.cache = none →
      (liveFor net c k reqs =
        if reqs.any (fun r => decide (keyOf c.authenticated r = k)) then 1 else 0) ∧
      respOK net c k reqs ∧
      (lookupCache k (clientAfter net c reqs).cache =
        if reqs.any (fun r => decide (keyOf c.authenticated r = k)) then
          some (netValue net k) else none) := by
  constructor
  · rintro (h | h | h) <;> simp [netValue, h]
  intro reqs
  induction reqs with
  | nil => intro c h; exact ⟨rfl, trivial, by simpa [clientAfter] using h⟩
  | cons r rs ih =>
    intro c h
    by_cases hk : keyOf c.authenticated r = k
    · have hmiss : lookupCache (keyOf c.authenticated (r.1, r.2)) c.cache = none := by
        rw [show ((r.1, r.2) : List Char × Int) = r from rfl, hk]
        exact h
      have hkey : keyOf c.authenticated (r.1, r.2) = k := hk
      have hst := @get_state_miss net _ _ _ hmiss
      rw [hkey] at hst
      have hcached : lookupCache k (get_state net c r.1 r.2).2.1.cache =
          some (netValue net k) := by
        rw [hst]
        show lookupCache k ((k, netValue net k) :: c.cache) = some (netValue net k)
        simp [lookupCache]
      obtain ⟨hl, hr, hc⟩ := runSeq_cached net k rs (get_state net c r.1 r.2).2.1 hcached
      have hany : (r :: rs).any (fun r => decide (keyOf c.authenticated r = k)) = true := by
        simp [List.any_cons, hk]
      rw [hst] at hl hc
      dsimp only at hl hc
      refine ⟨?_, ⟨?_, hr⟩, ?_⟩
      · rw [if_pos hany]
        unfold liveFor
        rw [hst]
        dsimp only
        rw [if_pos hk, hl]
      · intro _
        rw [hst]
      · rw [if_pos hany]
        unfold clientAfter
        rw [hst]
        exact hc
    · have hpres : lookupCache k (get_state net c r.1 r.2).2.1.cache =
          lookupCache k c.cache := get_state_lookup_other hk
      have hauth := get_state_auth net c r.1 r.2
      obtain ⟨hl, hr, hc⟩ := ih (get_state net c r.1 r.2).2.1 (by rw [hpres]; exact h)
      have hany : (r :: rs).any (fun r => decide (keyOf c.authenticated r = k)) =
          rs.any (fun r => decide (keyOf c.authenticated r = k)) := by
        simp [List.any_cons, hk]
      rw [hauth] at hl hc
      refine ⟨?_, ⟨fun hkk => absurd hkk hk, hr⟩, ?_⟩
      · rw [hany]
        unfold liveFor
        rcases hst : get_state net c r.1 r.2 with ⟨v, c1, n⟩
        rw [hst] at hl
        dsimp only
        dsimp only at hl
        rw [if_neg hk, hl]
        simp
      · rw [hany]
        unfold clientAfter
        exact hc

/-- Witness for C3: two requests quantizing to the same key on a fresh
client make exactly one live call, and the entry is cached. -/
theorem backfill_single_call_witness :
    liveFor net0 client0 (chars "abc123", 5) [(chars "abc123", 7), (chars "abc123", 9)] = 1 ∧
    respOK net0 client0 (chars "abc123", 5) [(chars "abc123", 7), (chars "abc123", 9)] ∧
    lookupCache (chars "abc123", 5)
      (clientAfter net0 client0 [(chars "abc123", 7), (chars "abc123", 9)]).cache =
      some (netValue net0 (chars "abc123", 5)) := by
  obtain ⟨hl, hr, hc⟩ := (backfill_single_call net0 (chars "abc123", 5)).2
    [(chars "abc123", 7), (chars "abc123", 9)] client0 rfl
  refine ⟨?_, hr, ?_⟩
  · rw [hl]
    rfl
  · rw [hc]
    rfl

/-! ### Call budget (C2) -/

theorem get_state_live_le (net : NetOracle) (c : OpenSkyClient) (ic : List Char) (ep : Int) :
    (get_state net c ic ep).2.2 ≤ 1 := by
  unfold get_state
  dsimp only
  rcases lookupCache (keyOf c.authenticated (ic, ep)) c.cache with _ | v <;> simp

theorem fillRows_live_le (net : NetOracle) (hcol : Bool) (budget : Int) :
    ∀ (mids : List MidRow) (c : OpenSkyClient) (api : Int),
      (fillRows net hcol budget c api mids).live ≤ (budget - api).toNat := by
  intro mids
  induction mids with
  | nil =>
    intro c api
    simp [fillRows]
  | cons m ms ih =>
    intro c api
    unfold fillRows
    by_cases hstop : budget ≤ api
    · rw [if_pos hstop]
      exact Nat.zero_le _
    · rw [if_neg hstop]
      have hlt : api < budget := lt_of_not_le hstop
      by_cases hnf : needs_fill m = false
      · rw [if_pos hnf]
        dsimp only
        exact ih c api
      · rw [if_neg hnf]
        rcases hic : m.icao with _ | ic
        · dsimp only
          exact ih c api
        · dsimp only
          have hn : (get_state net c ic m.realEpoch).2.2 ≤ 1 := get_state_live_le net c ic m.realEpoch
          have hrec := ih (get_state net c ic m.realEpoch).2.1 (api + 1)
          show (get_state net c ic m.realEpoch).2.2 +
            (fillRows net hcol budget (get_state net c ic m.realEpoch).2.1 (api + 1) ms).live ≤
            (budget - api).toNat
          omega

/-- C2 (amended: for every nonnegative budget; a negative budget issues no
calls, but then the zero call count still exceeds the budget — see the
counterexample): over one run of the fill loop, the number of live OpenSky
calls is at most `max_api_calls`, and once the attempt counter has reached
the budget the loop stops — every remaining row is returned with log-only
fields and no lookups are made. -/
theorem api_call_budget (net : NetOracle) (hcol : Bool) (budget : Int)
    (c : OpenSkyClient) (mids : List MidRow) (hb : 0 ≤ budget) :
    ((fillRows net hcol budget c 0 mids).live : Int) ≤ budget ∧
    ∀ (c' : OpenSkyClient) (api : Int) (rest : List MidRow), budget ≤ api →
      fillRows net hcol budget c' api rest = ⟨rest, c', api, 0⟩ := by
  constructor
  · have h1 := fillRows_live_le net hcol budget mids c 0
    omega
  · intro c' api rest hge
    cases rest with
    | nil => rfl
    | cons m ms =>
      unfold fillRows
      rw [if_pos hge]

/-- Witness for C2 at budget 5 on a one-row sequence needing a fill. -/
theorem api_call_budget_witness :
    ((fillRows net0 false 5 client0 0 [mid0]).live : Int) ≤ 5 :=
  (api_call_budget net0 false 5 client0 [mid0] (by norm_num)).1

/-- Counterexample to C2 as stated for every integer budget: with the budget
`-1` the loop issues zero live calls, and zero is not `≤ -1`, so "total live
calls ≤ max_api_calls" fails for negative configured budgets. -/
theorem api_call_budget_counterexample :
    ¬(((fillRows net0 false (-1) client0 0 [mid0]).live : Int) ≤ -1) := by
  have h0 : (fillRows net0 false (-1) client0 0 [mid0]).live = 0 := rfl
  rw [h0]
  decide

/-- C4 (code bug): on the 14-character input `-fffffffffffff`, which Python's
`int(s, 16)` parses to a negative value, `bin()[2:].zfill(56)` leaves a `b`
inside the first five characters, and the downlink-format parse
`int(bits[0:5], 2)` — which sits outside the `try` block — raises an
uncaught `ValueError`, contradicting both the spec and the function's own
docstring ("Returns lowercase 6-hex string, or None if cannot decode"). -/
theorem extract_icao24_raises :
    extract_icao24_from_df11 (chars "-fffffffffffff") =
      .error "ValueError: invalid literal for int() with base 2" := rfl

/-! ### Helper lemmas for the fill-loop frame and pipeline totality (C8, C1) -/

theorem forall₂_trans_helper {α β γ : Type} {R : α → β → Prop} {S : β → γ → Prop}
    {T : α → γ → Prop} (h : ∀ a b c, R a b → S b c → T a c) :
    ∀ {l₁ : List α} {l₂ : List β} {l₃ : List γ},
      List.Forall₂ R l₁ l₂ → List.Forall₂ S l₂ l₃ → List.Forall₂ T l₁ l₃ := by
  intro l₁
  induction l₁ with
  | nil =>
    intro l₂ l₃ h12 h23
    cases h12
    cases h23
    exact List.Forall₂.nil
  | cons a l₁ ih =>
    intro l₂ l₃ h12 h23
    cases h12 with
    | cons hab h12' =>
      cases h23 with
      | cons hbc h23' =>
        exact List.Forall₂.cons (h _ _ _ hab hbc) (ih h12' h23')

theorem applyFill_frame (hcol : Bool) (m : MidRow) (st : Option StateResult) :
    (applyFill hcol m st).raw = m.raw ∧ (applyFill hcol m st).icao = m.icao ∧
    (applyFill hcol m st).realEpoch = m.realEpoch ∧
    (missing_pos m.lat m.lon = false →
      (applyFill hcol m st).lat = m.lat ∧ (applyFill hcol m st).lon = m.lon) ∧
    (missing_zero m.alt = false → (applyFill hcol m st).alt = m.alt) ∧
    (missing_zero m.spd = false → (applyFill hcol m st).spd = m.spd) ∧
    (missing_zero m.heading = false → (applyFill hcol m st).heading = m.heading) := by
  cases st with
  | none => exact ⟨rfl, rfl, rfl, fun _ => ⟨rfl, rfl⟩, fun _ => rfl, fun _ => rfl, fun _ => rfl⟩
  | some v =>
    refine ⟨rfl, rfl, rfl, ?_, ?_, ?_, ?_⟩
    · intro hm
      constructor <;> simp [applyFill, hm]
    · intro hm
      simp [applyFill, hm]
    · intro hm
      simp [applyFill, hm]
    · intro hm
      simp [applyFill, hm]

theorem fillRows_frame (net : NetOracle) (hcol : Bool) (budget : Int) :
    ∀ (mids : List MidRow) (c : OpenSkyClient) (api : Int),
      List.Forall₂ (fun m m' =>
        m'.raw = m.raw ∧ m'.icao = m.icao ∧ m'.realEpoch = m.realEpoch ∧
        (missing_pos m.lat m.lon = false → m'.lat = m.lat ∧ m'.lon = m.lon) ∧
        (missing_zero m.alt = false → m'.alt = m.alt) ∧
        (missing_zero m.spd = false → m'.spd = m.spd) ∧
        (missing_zero m.heading = false → m'.heading = m.heading))
        mids (fillRows net hcol budget c api mids).rows := by
  intro mids
  induction mids with
  | nil => intro c api; exact List.Forall₂.nil
  | cons m ms ih =>
    intro c api
    unfold fillRows
    by_cases hstop : budget ≤ api
    · rw [if_pos hstop]
      refine List.forall₂_same.mpr ?_
      intro x _
      exact ⟨rfl, rfl, rfl, fun _ => ⟨rfl, rfl⟩, fun _ => rfl, fun _ => rfl, fun _ => rfl⟩
    · rw [if_neg hstop]
      by_cases hnf : needs_fill m = false
      · rw [if_pos hnf]
        dsimp only
        exact List.Forall₂.cons
          ⟨rfl, rfl, rfl, fun _ => ⟨rfl, rfl⟩, fun _ => rfl, fun _ => rfl, fun _ => rfl⟩
          (ih c api)
      · rw [if_neg hnf]
        rcases hi : m.icao with _ | ic
        · dsimp only
          exact List.Forall₂.cons
            ⟨rfl, rfl, rfl, fun _ => ⟨rfl, rfl⟩, fun _ => rfl, fun _ => rfl, fun _ => rfl⟩
            (ih c api)
        · dsimp only
          exact List.Forall₂.cons (applyFill_frame hcol m _) (ih _ _)

theorem mapME_ok {α β : Type} (f : α → Except String β) :
    ∀ (l : List α), (∀ a ∈ l, exceptOk (f a) = true) →
      ∃ l', mapME f l = .ok l' ∧ List.Forall₂ (fun a b => f a = .ok b) l l' := by
  intro l
  induction l with
  | nil => intro _; exact ⟨[], rfl, List.Forall₂.nil⟩
  | cons a as ih =>
    intro h
    rcases hfa : f a with e | b
    · exact absurd (h a (List.mem_cons_self _ _)) (by simp [exceptOk, hfa])
    · obtain ⟨l', hl', hF⟩ := ih (fun x hx => h x (List.mem_cons_of_mem _ hx))
      refine ⟨b :: l', ?_, List.Forall₂.cons hfa hF⟩
      unfold mapME
      rw [hfa, hl']
      rfl

theorem mapME_ok_inv {α β : Type} {f : α → Except String β} :
    ∀ {l : List α} {l' : List β}, mapME f l = .ok l' →
      List.Forall₂ (fun a b => f a = .ok b) l l' := by
  intro l
  induction l with
  | nil =>
    intro l' h
    cases Except.ok.inj h
    exact List.Forall₂.nil
  | cons a as ih =>
    intro l' h
    unfold mapME at h
    rcases hfa : f a with e | b
    · rw [hfa] at h
      exact Except.noConfusion h
    · rw [hfa] at h
      rcases hrest : mapME f as with e | bs
      · rw [hrest] at h
        exact Except.noConfusion h
      · rw [hrest] at h
        cases Except.ok.inj h
        exact List.Forall₂.cons hfa (ih hrest)

theorem zipMids_fields (cfg : AnalyzeConfig) :
    ∀ (rows : List RawRow) (ics : List (Option (List Char))) (qs : List ℚ),
      ics.length = rows.length → qs.length = rows.length →
      List.Forall₂ (fun r m => m.raw = r ∧ m.lat = safe_float r.latitude ∧
        m.lon = safe_float r.longitude ∧ m.alt = safe_float r.altitude ∧
        m.spd = safe_float r.speed ∧ m.heading = safe_float r.heading)
        rows (zipMids cfg rows ics qs) := by
  intro rows
  induction rows with
  | nil =>
    intro ics qs h1 h2
    rcases List.length_eq_zero.mp h1
    rcases List.length_eq_zero.mp h2
    exact List.Forall₂.nil
  | cons r rs ih =>
    intro ics qs h1 h2
    rcases ics with _ | ⟨ic, ics⟩
    · simp at h1
    rcases qs with _ | ⟨q, qs⟩
    · simp at h2
    exact List.Forall₂.cons ⟨rfl, rfl, rfl, rfl, rfl, rfl⟩
      (ih ics qs (by simpa using h1) (by simpa using h2))

theorem mapperFor_isOk (cfg : AnalyzeConfig) (hdeg : ¬|cfg.a2m - cfg.a1m| < 1 / 1000000)
    (base : ℚ) : ∃ L, mapperFor cfg base = .ok L := by
  refine ⟨_, from_anchors_ok _ _ _ _ ?_⟩
  rw [show base + cfg.a2m - cfg.tz - (base + cfg.a1m - cfg.tz) = cfg.a2m - cfg.a1m from by ring]
  exact hdeg

theorem exbind_ok {α β : Type} (a : α) (f : α → Except String β) :
    (do let x ← Except.ok a; f x : Except String β) = f a := rfl

theorem exbind_err {α β : Type} (e : String) (f : α → Except String β) :
    (do let x ← Except.error e; f x : Except String β) = Except.error e := rfl

theorem analyze_eq (P : GeoPrims) (cfg : AnalyzeConfig) (net : NetOracle) (rows : List RawRow)
    {icaos : List (Option (List Char))} {mats : List MDateTime} {reals : List ℚ}
    (h1 : mapME (fun r => resolveIdentity r.icao24 r.message) rows = .ok icaos)
    (h2 : mapME (fun r => parse_matlab_timestamp r.time) rows = .ok mats)
    (h3 : mapME (fun dt => do
        let L ← mapperFor cfg (dateBase dt)
        .ok (L.map_s (timegmQ dt - cfg.tz))) mats = .ok reals) :
    analyze P cfg net rows =
      .ok ((if cfg.use_opensky then
          fillRows net cfg.hasHeadingCol cfg.max_api_calls ⟨cfg.authenticated, []⟩ 0
            (zipMids cfg rows icaos reals)
        else ⟨zipMids cfg rows icaos reals, ⟨cfg.authenticated, []⟩, 0, 0⟩).rows.map
          (finalizeRow P),
        (if cfg.use_opensky then
          fillRows net cfg.hasHeadingCol cfg.max_api_calls ⟨cfg.authenticated, []⟩ 0
            (zipMids cfg rows icaos reals)
        else ⟨zipMids cfg rows icaos reals, ⟨cfg.authenticated, []⟩, 0, 0⟩).live) := by
  simp only [analyze, h1, h2, h3, exbind_ok]

theorem analyze_ok_inv {P : GeoPrims} {cfg : AnalyzeConfig} {net : NetOracle}
    {rows : List RawRow} {out : List EnrichedRow} {live : Nat}
    (h : analyze P cfg net rows = .ok (out, live)) :
    ∃ icaos reals,
      mapME (fun r => resolveIdentity r.icao24 r.message) rows = .ok icaos ∧
      icaos.length = rows.length ∧ reals.length = rows.length ∧
      out = ((if cfg.use_opensky then
          fillRows net cfg.hasHeadingCol cfg.max_api_calls ⟨cfg.authenticated, []⟩ 0
            (zipMids cfg rows icaos reals)
        else ⟨zipMids cfg rows icaos reals, ⟨cfg.authenticated, []⟩, 0, 0⟩).rows.map
          (finalizeRow P)) := by
  rcases h1 : mapME (fun r => resolveIdentity r.icao24 r.message) rows with e | icaos
  · simp only [analyze, h1, exbind_err] at h
    exact Except.noConfusion h
  rcases h2 : mapME (fun r => parse_matlab_timestamp r.time) rows with e | mats
  · simp only [analyze, h1, h2, exbind_ok, exbind_err] at h
    exact Except.noConfusion h
  rcases h3 : mapME (fun dt => do
      let L ← mapperFor cfg (dateBase dt)
      .ok (L.map_s (timegmQ dt - cfg.tz))) mats with e | reals
  · simp only [analyze, h1, h2, h3, exbind_ok, exbind_err] at h
    exact Except.noConfusion h
  · simp only [analyze, h1, h2, h3, exbind_ok] at h
    have h' := Except.ok.inj h
    refine ⟨icaos, reals, h1, ?_, ?_, ?_⟩
    · exact (List.Forall₂.length_eq (mapME_ok_inv h1)).symm
    · have e1 := List.Forall₂.length_eq (mapME_ok_inv h2)
      have e2 := List.Forall₂.length_eq (mapME_ok_inv h3)
      omega
    · exact (congrArg Prod.fst h').symm

/-- C8 (amended: "missing before the lookup" is the code's own test —
position absent or with both coordinates within `1e-9` of zero, altitude or
speed absent or exactly zero; a present position inside the `1e-9` band is
non-zero yet still overwritten, so "present and non-zero is never changed"
does not hold as stated — see the counterexample): the fill loop preserves
the identity, the time and every kinematic field that fails its missing-test,
whatever the lookup returns; and with backfill disabled every enriched
record's resolved kinematic fields equal the parsed logged fields exactly. -/
theorem backfill_frame :
    (∀ (net : NetOracle) (hcol : Bool) (budget : Int) (c : OpenSkyClient) (api : Int)
        (mids : List MidRow),
      List.Forall₂ (fun m m' =>
        m'.raw = m.raw ∧ m'.icao = m.icao ∧ m'.realEpoch = m.realEpoch ∧
        (missing_pos m.lat m.lon = false → m'.lat = m.lat ∧ m'.lon = m.lon) ∧
        (missing_zero m.alt = false → m'.alt = m.alt) ∧
        (missing_zero m.spd = false → m'.spd = m.spd) ∧
        (missing_zero m.heading = false → m'.heading = m.heading))
        mids (fillRows net hcol budget c api mids).rows) ∧
    (∀ (P : GeoPrims) (cfg : AnalyzeConfig) (net : NetOracle) (rows : List RawRow)
        (out : List EnrichedRow) (live : Nat),
      cfg.use_opensky = false → analyze P cfg net rows = .ok (out, live) →
      List.Forall₂ (fun r e =>
        e.lat = safe_float r.latitude ∧ e.lon = safe_float r.longitude ∧
        e.alt_ft = safe_float r.altitude ∧ e.spd_kts = safe_float r.speed ∧
        e.heading = safe_float r.heading) rows out) := by
  constructor
  · exact fun net hcol budget c api mids => fillRows_frame net hcol budget mids c api
  · intro P cfg net rows out live huse hout
    obtain ⟨icaos, reals, _, hlen1, hlen2, hout'⟩ := analyze_ok_inv hout
    rw [huse] at hout'
    simp only [Bool.false_eq_true, if_false] at hout'
    subst hout'
    refine List.forall₂_map_right_iff.mpr ?_
    refine List.Forall₂.imp ?_ (zipMids_fields cfg rows icaos reals hlen1 hlen2)
    intro r m hm
    exact ⟨hm.2.1, hm.2.2.1, hm.2.2.2.1, hm.2.2.2.2.1, hm.2.2.2.2.2⟩

/-- Witness for C8: the frame property evaluated on a concrete fill-loop run,
and the disabled-backfill property instantiated on a concrete successful run
of the pipeline. -/
theorem backfill_frame_witness :
    List.Forall₂ (fun m m' =>
      m'.raw = m.raw ∧ m'.icao = m.icao ∧ m'.realEpoch = m.realEpoch ∧
      (missing_pos m.lat m.lon = false → m'.lat = m.lat ∧ m'.lon = m.lon) ∧
      (missing_zero m.alt = false → m'.alt = m.alt) ∧
      (missing_zero m.spd = false → m'.spd = m.spd) ∧
      (missing_zero m.heading = false → m'.heading = m.heading))
      [mid1] (fillRows net0 false 5 client0 0 [mid1]).rows ∧
    (cfg0.use_opensky = false ∧ analyze cPrims cfg0 net0 [] = .ok ([], 0)) ∧
    List.Forall₂ (fun r e =>
      e.lat = safe_float r.latitude ∧ e.lon = safe_float r.longitude ∧
      e.alt_ft = safe_float r.altitude ∧ e.spd_kts = safe_float r.speed ∧
      e.heading = safe_float r.heading) ([] : List RawRow) ([] : List EnrichedRow) :=
  ⟨backfill_frame.1 net0 false 5 client0 0 [mid1], ⟨rfl, rfl⟩,
    backfill_frame.2 cPrims cfg0 net0 [] [] 0 rfl rfl⟩

/-- Counterexample to C8 as stated: `mid1`'s logged position is present and
non-zero (`1e-10`, `1e-10`), yet the fill loop overwrites it with the
lookup's `(25, 121)`, because the code's missing-test is a `1e-9` band, not
equality with `(0, 0)`. -/
theorem backfill_overwrite_counterexample :
    mid1.lat = some (1 / 10 ^ 10) ∧ mid1.lon = some (1 / 10 ^ 10) ∧
    ((1 : ℚ) / 10 ^ 10 ≠ 0) ∧
    ((fillRows net0 false 5 client0 0 [mid1]).rows.map fun m => (m.lat, m.lon)) =
      [(some 25, some 121)] := by
  have habs : |(1 : ℚ) / 10 ^ 10| = 1 / 10 ^ 10 := abs_of_pos (by norm_num)
  have hmp : missing_pos (some ((1 : ℚ) / 10 ^ 10)) (some ((1 : ℚ) / 10 ^ 10)) = true := by
    simp only [missing_pos, decide_eq_true_eq, habs]
    norm_num
  have hmp' : missing_pos (some ((1 : ℚ) / 10000000000)) (some ((1 : ℚ) / 10000000000)) =
      true := by
    rw [show ((10000000000 : ℚ)) = 10 ^ 10 from by norm_num]
    exact hmp
  refine ⟨rfl, rfl, by norm_num, ?_⟩
  norm_num [fillRows, needs_fill, mid1, hmp, hmp', get_state, keyOf, round_query_time,
    lookupCache, netValue, net0, client0, st0, applyFill, missing_zero, rawBlank]

/-- C1 (amended: totality holds only when every row's timestamp string
parses, no row's identity fallback raises, and the anchor pair is
non-degenerate; a row violating the first condition aborts the entire run
with an uncaught exception instead of being emitted with absent fields — see
the counterexample): under those hypotheses the pipeline completes and emits
exactly one enriched record per input row, in input order, each carrying its
own raw row. -/
theorem pipeline_emits_all (P : GeoPrims) (cfg : AnalyzeConfig) (net : NetOracle)
    (rows : List RawRow)
    (hdeg : ¬|cfg.a2m - cfg.a1m| < 1 / 1000000)
    (hT : ∀ r ∈ rows, exceptOk (parse_matlab_timestamp r.time) = true)
    (hI : ∀ r ∈ rows, exceptOk (resolveIdentity r.icao24 r.message) = true) :
    ∃ out live, analyze P cfg net rows = .ok (out, live) ∧ out.length = rows.length ∧
      List.Forall₂ (fun r e => e.raw = r) rows out := by
  obtain ⟨icaos, hic, hicF⟩ := mapME_ok (fun r => resolveIdentity r.icao24 r.message) rows hI
  obtain ⟨mats, hmat, hmatF⟩ := mapME_ok (fun r => parse_matlab_timestamp r.time) rows hT
  have hre : ∀ dt ∈ mats, exceptOk ((fun dt => do
      let L ← mapperFor cfg (dateBase dt)
      .ok (L.map_s (timegmQ dt - cfg.tz)) : MDateTime → Except String ℚ) dt) = true := by
    intro dt _
    obtain ⟨L, hL⟩ := mapperFor_isOk cfg hdeg (dateBase dt)
    simp only [hL, exbind_ok]
    rfl
  obtain ⟨reals, hrea, hreaF⟩ := mapME_ok _ mats hre
  have hraw1 : List.Forall₂ (fun r m => m.raw = r) rows (zipMids cfg rows icaos reals) := by
    refine List.Forall₂.imp (fun a b h => h.1)
      (zipMids_fields cfg rows icaos reals ?_ ?_)
    · exact (List.Forall₂.length_eq hicF).symm
    · have e1 := List.Forall₂.length_eq hmatF
      have e2 := List.Forall₂.length_eq hreaF
      omega
  have hfo : List.Forall₂ (fun m m' => m'.raw = m.raw) (zipMids cfg rows icaos reals)
      (if cfg.use_opensky then
          fillRows net cfg.hasHeadingCol cfg.max_api_calls ⟨cfg.authenticated, []⟩ 0
            (zipMids cfg rows icaos reals)
        else ⟨zipMids cfg rows icaos reals, ⟨cfg.authenticated, []⟩, 0, 0⟩).rows := by
    by_cases hu : cfg.use_opensky = true
    · rw [if_pos hu]
      exact List.Forall₂.imp (fun a b h => h.1)
        (fillRows_frame net cfg.hasHeadingCol cfg.max_api_calls (zipMids cfg rows icaos reals)
          ⟨cfg.authenticated, []⟩ 0)
    · rw [if_neg hu]
      exact List.forall₂_same.mpr fun x _ => rfl
  have hcomp : List.Forall₂ (fun (r : RawRow) (m' : MidRow) => m'.raw = r) rows
      (if cfg.use_opensky then
          fillRows net cfg.hasHeadingCol cfg.max_api_calls ⟨cfg.authenticated, []⟩ 0
            (zipMids cfg rows icaos reals)
        else ⟨zipMids cfg rows icaos reals, ⟨cfg.authenticated, []⟩, 0, 0⟩).rows :=
    forall₂_trans_helper (fun a b c hab hbc => hbc.trans hab) hraw1 hfo
  refine ⟨_, _, analyze_eq P cfg net rows hic hmat hrea, ?_, ?_⟩
  · rw [List.length_map]
    exact (List.Forall₂.length_eq hcomp).symm
  · exact List.forall₂_map_right_iff.mpr (List.Forall₂.imp (fun a b h => h) hcomp)

/-- Witness for C1: a one-row log with a well-formed timestamp runs to
completion and yields exactly one record carrying that row. -/
theorem pipeline_emits_all_witness :
    ∃ out live, analyze cPrims cfg0 net0 [rowGood] = .ok (out, live) ∧
      out.length = [rowGood].length ∧
      List.Forall₂ (fun r e => e.raw = r) [rowGood] out :=
  pipeline_emits_all cPrims cfg0 net0 [rowGood]
    (by norm_num [cfg0, LogA.A1M, LogA.A2M])
    (by decide) (by decide)

/-- Counterexample to C1 as stated: a row whose timestamp string does not
parse aborts the entire run with an uncaught exception — the record stream is
not produced at all, rather than the row being emitted with absent derived
fields (`parse_matlab_timestamp` is applied under `Series.apply` with no
handler). -/
theorem pipeline_abort_counterexample :
    analyze cPrims cfg0 net0 [rowBad] =
      .error "ValueError: time data does not match format" := rfl

end ADSB
